import Mathlib

/-!
# Smart Task Manager (`src/app.js`)

A shallow embedding of the storage layer, the simulated auth and task services, the
import/export handlers and the filter/sort/stats pipeline of `src/app.js`, followed by
theorems about them.

Conventions of the embedding:

* `localStorage` holds JSON text; `store.write` is `JSON.stringify` followed by `setItem`
  and `store.read` is `getItem` followed by `JSON.parse`.  The state is modelled by the
  values that `store.read` would return.
* `await delay(ms)` only postpones a call; the handlers run one at a time, so every
  service call is a function from the storage before the call to the storage after it.
* `uid()` and `new Date().toISOString()` read the random generator and the clock; their
  results are passed to the functions as arguments.
-/

namespace TaskManager

/-! ## JSON values -/

/-- A value held in `localStorage` under a JSON key: what `JSON.parse` returns for a text
written by `JSON.stringify`.  Numbers are finite (`JSON.stringify` never prints
`Infinity`); an object is the list of its own properties in insertion order. -/
inductive Json where
  | null
  | bool (b : Bool)
  | num (q : ℚ)
  | str (s : String)
  | arr (items : List Json)
  | obj (fields : List (String × Json))

/-- A plain object: its own properties, in insertion order. -/
abbrev JObject := List (String × Json)

/-- Property read `o.k` on a plain object; `none` is `undefined`. -/
def JObject.get (o : JObject) (k : String) : Option Json :=
  match o with
  | [] => none
  | (k', v) :: rest => if k' = k then some v else JObject.get rest k

/-- Property write `o[k] = v` as performed by object spread: an existing property keeps
its position and takes the new value, a new property is appended. -/
def JObject.set (o : JObject) (k : String) (v : Json) : JObject :=
  match o with
  | [] => [(k, v)]
  | (k', v') :: rest => if k' = k then (k', v) :: rest else (k', v') :: JObject.set rest k v

/-- Object spread `{ ...o, ...patch }`: the properties of `patch` are written over `o`
one after the other. -/
def JObject.spread (o patch : JObject) : JObject :=
  patch.foldl (fun acc kv => JObject.set acc kv.1 kv.2) o

/-- JavaScript truthiness of a property value (`none` is `undefined`). -/
def truthy : Option Json → Bool
  | none => false
  | some .null => false
  | some (.bool b) => b
  | some (.num q) => decide (q ≠ 0)
  | some (.str s) => decide (s ≠ "")
  | some (.arr _) => true
  | some (.obj _) => true

/-- Strict equality `a === b` between a value read from a freshly parsed list and a value
coming from elsewhere: primitives compare by value, arrays and objects by reference, and
two separately parsed objects are never the same reference. -/
def strictEq : Json → Json → Bool
  | .null, .null => true
  | .bool a, .bool b => a == b
  | .num a, .num b => decide (a = b)
  | .str a, .str b => a == b
  | _, _ => false

/-! ## Storage -/

/-- An instant in the text form returned by `new Date().toISOString()`
(`YYYY-MM-DDTHH:mm:ss.sssZ`), which is never the empty string. -/
structure IsoTime where
  text : String
  nonempty : text ≠ ""
  deriving DecidableEq

/-- A registered user, as built by `auth.register`. -/
structure User where
  id : String
  name : String
  email : String
  password : String
  createdAt : IsoTime
  lastLogin : Option IsoTime
  deriving DecidableEq

/-- The active session, as built by `auth.login`. -/
structure Session where
  id : String
  email : String
  name : String
  lastLogin : IsoTime
  deriving DecidableEq

/-- The part of `localStorage` the application uses: `stm.users` (a missing or malformed
entry reads as `[]`), `stm.activeUser` (`none` when absent) and one task list per email
under `stm.tasks.<email>` (a missing entry reads as `[]`). -/
structure LocalStorage where
  users : List User
  session : Option Session
  tasks : String → List JObject

/-- The call `store.write(store.keyTasks(email), list)`. -/
def LocalStorage.writeTasks (ls : LocalStorage) (email : String) (list : List JObject) :
    LocalStorage :=
  { ls with tasks := fun e => if e = email then list else ls.tasks e }

/-- The call `store.write(store.keyUsers, users)`. -/
def LocalStorage.writeUsers (ls : LocalStorage) (users : List User) : LocalStorage :=
  { ls with users := users }

/-- The call `store.write(store.keySession, session)`. -/
def LocalStorage.writeSession (ls : LocalStorage) (session : Session) : LocalStorage :=
  { ls with session := some session }

/-! ## Auth service -/

/-- The object returned by `auth.register` and `auth.login`. -/
structure Reply where
  ok : Bool
  message : String
  user : Option User
  deriving DecidableEq

/-- `auth.register({ name, email, password })`, with the generated id and the current
time as arguments. -/
def auth.register (ls : LocalStorage) (name email password : String) (id : String)
    (now : IsoTime) : Reply × LocalStorage :=
  let users := ls.users
  if users.any (fun u => u.email == email) then
    ({ ok := false, message := "Email already exists", user := none }, ls)
  else
    let user : User :=
      { id := id, name := name, email := email, password := password,
        createdAt := now, lastLogin := none }
    let users := users ++ [user]
    ({ ok := true, message := "Registered successfully", user := some user },
      ls.writeUsers users)

/-- The expression `user.lastLogin || user.createdAt`: the left operand when it is truthy
(neither `null` nor the empty string), else the right one. -/
def lastLoginOr (lastLogin : Option IsoTime) (createdAt : IsoTime) : IsoTime :=
  match lastLogin with
  | none => createdAt
  | some t => if t.text = "" then createdAt else t

/-- `users.findIndex(pred)`: `none` stands for `-1`. -/
def findIndex {α : Type} (pred : α → Bool) : List α → Option Nat
  | [] => none
  | x :: xs => if pred x then some 0 else (findIndex pred xs).map (· + 1)

/-- `auth.login({ email, password })`, with the current time as an argument. -/
def auth.login (ls : LocalStorage) (email password : String) (now : IsoTime) :
    Reply × LocalStorage :=
  let users := ls.users
  match findIndex (fun u => u.email == email && u.password == password) users with
  | none => ({ ok := false, message := "Invalid email or password", user := none }, ls)
  | some idx =>
    match users.get? idx with
    | none => ({ ok := false, message := "Invalid email or password", user := none }, ls)
    | some user =>
      let previousLastLogin := lastLoginOr user.lastLogin user.createdAt
      let ls1 := ls.writeSession
        { id := user.id, email := user.email, name := user.name,
          lastLogin := previousLastLogin }
      let updated : User := { user with lastLogin := some now }
      let users := users.set idx updated
      ({ ok := true, message := "Login successful", user := some updated },
        ls1.writeUsers users)

/-! ## Task service -/

/-- The argument `payload` of `tasksApi.create`; `none` is a missing (or `null`) field. -/
structure Payload where
  title : String
  notes : Option String
  due : Option String

/-- The expression `payload.notes || ''`. -/
def notesOrEmpty : Option String → Json
  | none => .str ""
  | some s => if s = "" then .str "" else .str s

/-- The expression `payload.due || null`. -/
def dueOrNull : Option String → Json
  | none => .null
  | some s => if s = "" then .null else .str s

/-- The test `t.id === id` used by `update`. -/
def idIs (id : Json) (t : JObject) : Bool :=
  match t.get "id" with
  | some v => strictEq v id
  | none => false

/-- The test `t.completed` in a boolean context. -/
def isCompleted (t : JObject) : Bool := truthy (t.get "completed")

/-- The failures of the task service and of the import handler. -/
inductive ApiError where
  | taskNotFound
  | invalidFile
  | invalidTasks
  | typeError
  deriving DecidableEq

/-- `tasksApi.list(email)`. -/
def tasksApi.list (ls : LocalStorage) (email : String) : List JObject := ls.tasks email

/-- `tasksApi.create(email, payload)`, with the generated id and the current time as
arguments; returns the new task and the storage after the call. -/
def tasksApi.create (ls : LocalStorage) (email : String) (payload : Payload) (id : String)
    (now : IsoTime) : JObject × LocalStorage :=
  let list := ls.tasks email
  let task : JObject :=
    [("id", .str id), ("title", .str payload.title), ("notes", notesOrEmpty payload.notes),
     ("due", dueOrNull payload.due), ("completed", .bool false),
     ("createdAt", .str now.text), ("updatedAt", .str now.text)]
  (task, ls.writeTasks email (list ++ [task]))

/-- `tasksApi.update(email, id, patch)`, with the current time as an argument.  The patch
is a plain object of JSON values.  The result is the returned task, or the error thrown,
together with the storage after the call. -/
def tasksApi.update (ls : LocalStorage) (email : String) (id : Json) (patch : JObject)
    (now : IsoTime) : Except ApiError JObject × LocalStorage :=
  let list := ls.tasks email
  match findIndex (idIs id) list with
  | none => (.error .taskNotFound, ls)
  | some idx =>
    match list.get? idx with
    | none => (.error .taskNotFound, ls)
    | some old =>
      let merged := (old.spread patch).set "updatedAt" (.str now.text)
      (.ok merged, ls.writeTasks email (list.set idx merged))

/-- `tasksApi.remove(email, id)`. -/
def tasksApi.remove (ls : LocalStorage) (email : String) (id : Json) : LocalStorage :=
  let list := ls.tasks email
  ls.writeTasks email (list.filter (fun t => !idIs id t))

/-- `tasksApi.clearCompleted(email)`. -/
def tasksApi.clearCompleted (ls : LocalStorage) (email : String) : LocalStorage :=
  let list := ls.tasks email
  ls.writeTasks email (list.filter (fun t => !isCompleted t))

/-! ## Import and export -/

/-- A value returned by `JSON.parse` for an arbitrary document.  Unlike a stored value it
may hold `Infinity` or `-Infinity`: a number literal beyond the binary64 range, such as
`1e400`, is read that way. -/
inductive Parsed where
  | null
  | bool (b : Bool)
  | num (q : ℚ)
  | inf (negative : Bool)
  | str (s : String)
  | arr (items : List Parsed)
  | obj (fields : List (String × Parsed))

/-- Property read on a parsed plain object. -/
def Parsed.getField (fields : List (String × Parsed)) (k : String) : Option Parsed :=
  match fields with
  | [] => none
  | (k', v) :: rest => if k' = k then some v else Parsed.getField rest k

/-- JavaScript truthiness of a parsed property value (`none` is `undefined`). -/
def Parsed.truthy : Option Parsed → Bool
  | none => false
  | some .null => false
  | some (.bool b) => b
  | some (.num q) => decide (q ≠ 0)
  | some (.inf _) => true
  | some (.str s) => decide (s ≠ "")
  | some (.arr _) => true
  | some (.obj _) => true

/-- The test `typeof v === 'string'`. -/
def Parsed.isString : Option Parsed → Bool
  | some (.str _) => true
  | _ => false

mutual
/-- What `store.read` returns after `store.write` of a parsed value: `JSON.stringify`
prints a non-finite number as `null`. -/
def Parsed.persist : Parsed → Json
  | .null => .null
  | .bool b => .bool b
  | .num q => .num q
  | .inf _ => .null
  | .str s => .str s
  | .arr items => .arr (Parsed.persistItems items)
  | .obj fields => .obj (Parsed.persistFields fields)
/-- The function `Parsed.persist` on the elements of an array. -/
def Parsed.persistItems : List Parsed → List Json
  | [] => []
  | v :: rest => Parsed.persist v :: Parsed.persistItems rest
/-- The function `Parsed.persist` on the properties of an object. -/
def Parsed.persistFields : List (String × Parsed) → List (String × Json)
  | [] => []
  | (k, v) :: rest => (k, Parsed.persist v) :: Parsed.persistFields rest
end

mutual
/-- What `JSON.parse` returns for the text `JSON.stringify` prints for a stored value. -/
def Json.reparse : Json → Parsed
  | .null => .null
  | .bool b => .bool b
  | .num q => .num q
  | .str s => .str s
  | .arr items => .arr (Json.reparseItems items)
  | .obj fields => .obj (Json.reparseFields fields)
/-- The function `Json.reparse` on the elements of an array. -/
def Json.reparseItems : List Json → List Parsed
  | [] => []
  | v :: rest => Json.reparse v :: Json.reparseItems rest
/-- The function `Json.reparse` on the properties of an object. -/
def Json.reparseFields : List (String × Json) → List (String × Parsed)
  | [] => []
  | (k, v) :: rest => (k, Json.reparse v) :: Json.reparseFields rest
end

/-- The callback `t => typeof t.title === 'string' && t.id` of the import handler, as a
boolean; `none` when reading a property throws (the element is `null`).  A primitive or
an array has neither property. -/
def importCheck : Parsed → Option Bool
  | .null => none
  | .obj fields =>
    some (Parsed.isString (Parsed.getField fields "title") &&
      Parsed.truthy (Parsed.getField fields "id"))
  | _ => some false

/-- The call `arr.every(t => typeof t.title === 'string' && t.id)`: elements are tested
in order and the first failing one ends the loop. -/
def everyCheck : List Parsed → Except ApiError Bool
  | [] => .ok true
  | t :: rest =>
    match importCheck t with
    | none => .error .typeError
    | some false => .ok false
    | some true => everyCheck rest

/-- The stored form of an array of plain objects; `none` if an element is not one. -/
def persistTasks : List Parsed → Option (List JObject)
  | [] => some []
  | .obj fields :: rest => (persistTasks rest).map (fun l => Parsed.persistFields fields :: l)
  | _ :: _ => none

/-- The document the export handler produces from the cache, as `JSON.parse` reads it
back: `JSON.parse(JSON.stringify(cache.tasks, null, 2))`. -/
def exportFile (tasks : List JObject) : Parsed :=
  .arr (tasks.map (fun t => .obj (Json.reparseFields t)))

/-! ## View state and rendering -/

/-- A task of the data model, as the controller reads it from the cache: `completed` is a
boolean, `title`, `notes` and the time stamps are strings. -/
structure Task where
  id : String
  title : String
  notes : String
  due : Option String
  completed : Bool
  createdAt : String
  updatedAt : String
  deriving DecidableEq

/-- The stored object of a task of the data model. -/
def Task.toObject (t : Task) : JObject :=
  [("id", .str t.id), ("title", .str t.title), ("notes", .str t.notes),
   ("due", match t.due with | none => .null | some d => .str d),
   ("completed", .bool t.completed), ("createdAt", .str t.createdAt),
   ("updatedAt", .str t.updatedAt)]

/-- The functions of the JavaScript host the controller calls: `String.prototype`'s
`toLowerCase` and `localeCompare` (the collation of the host's locale) and the time value
of `new Date(text)` (`none` for an invalid date, whose number is `NaN`). -/
structure Host where
  toLowerCase : String → String
  localeCompare : String → String → Int
  dateValue : String → Option Int

/-- The variable `cache` of the app controller. -/
structure Cache where
  tasks : List Task
  email : Option String
  filter : String
  search : String
  sort : String

/-- The handler of `#searchBox`: `cache.search = e.target.value.toLowerCase()`. -/
def setSearch (host : Host) (cache : Cache) (value : String) : Cache :=
  { cache with search := host.toLowerCase value }

/-- `s.includes(sub)`. -/
def includes (s sub : String) : Bool := decide (sub.data <:+: s.data)

/-- The callback of `cache.tasks.filter(...)` in `render`. -/
def keepRow (host : Host) (cache : Cache) (t : Task) : Bool :=
  if cache.filter = "completed" ∧ ¬ t.completed then false
  else if cache.filter = "pending" ∧ t.completed then false
  else if cache.search ≠ "" ∧
      ¬ includes (host.toLowerCase (t.title ++ " " ++ t.notes)) cache.search then false
  else true

/-- The comparator of `rows.sort(...)` in `render`.  The difference of two dates is `NaN`
when one of them is invalid, and `sort` reads a `NaN` result as `0`. -/
def compareRows (host : Host) (sort : String) (a b : Task) : Int :=
  if a.completed ≠ b.completed then (if a.completed then 1 else -1)
  else if sort = "alpha" then host.localeCompare a.title b.title
  else
    match host.dateValue b.createdAt, host.dateValue a.createdAt with
    | some tb, some ta => tb - ta
    | _, _ => 0

/-- `Array.prototype.sort(cmp)`: a stable sort, `a` staying before `b` when
`cmp(a, b) ≤ 0`.  For a consistent comparator the result of a stable sort is unique, so
insertion sort computes it. -/
def arraySort {α : Type} (cmp : α → α → Int) (l : List α) : List α :=
  l.insertionSort (fun a b => cmp a b ≤ 0)

/-- The rows `render` appends to `#taskList`, in order (none: the placeholder is shown). -/
def render (host : Host) (cache : Cache) : List Task :=
  arraySort (compareRows host cache.sort) (cache.tasks.filter (keepRow host cache))

/-! ## Statistics -/

/-- The integer nearest to `x`, a tie going to the even one. -/
def roundHalfEven (x : ℚ) : ℤ :=
  let f := ⌊x⌋
  if x - f < 1 / 2 then f
  else if 1 / 2 < x - f then f + 1
  else if f % 2 = 0 then f else f + 1

/-- The binary64 value of a real number: the nearest number with a 53-bit significand, a
tie going to the even significand.  This is the rounding IEEE 754 applies to the exact
result of one arithmetic operation; it is exact here for results in the normal range,
which holds the quotients and products `stats` computes. -/
def toDouble (q : ℚ) : ℚ :=
  if q = 0 then 0
  else
    let ulp : ℚ := 2 ^ (Int.log 2 |q| - 52)
    roundHalfEven (q / ulp) * ulp

/-- `Math.round(x)`: the nearest integer, a tie going up. -/
def mathRound (x : ℚ) : ℤ := ⌊x + 1 / 2⌋

/-- The numbers `stats` writes into the page. -/
structure Stats where
  total : Nat
  completed : Nat
  pending : Nat
  percent : ℤ
  deriving DecidableEq

/-- The expression `total === 0 ? 0 : Math.round((completed / total) * 100)`: a binary64
division followed by a binary64 multiplication. -/
def percentOf (completed total : Nat) : ℤ :=
  if total = 0 then 0
  else mathRound (toDouble (toDouble ((completed : ℚ) / (total : ℚ)) * 100))

/-- The function `stats` of the app controller. -/
def stats (cache : Cache) : Stats :=
  let total := cache.tasks.length
  let completed := (cache.tasks.filter (fun t => t.completed)).length
  let pending := total - completed
  { total := total, completed := completed, pending := pending,
    percent := percentOf completed total }

/-- The value the specification gives for the percentage: `round(100*completed/total)`
with a tie going up, and `0` when there is no task. -/
def specPercent (completed total : Nat) : ℤ :=
  if total = 0 then 0 else ⌊(100 * (completed : ℚ)) / (total : ℚ) + 1 / 2⌋

/-- The criterion the specification gives for a row to be shown. -/
def specKeep (host : Host) (cache : Cache) (t : Task) : Prop :=
  (cache.filter = "all" ∨ (cache.filter = "completed" ∧ t.completed = true) ∨
    (cache.filter = "pending" ∧ t.completed = false)) ∧
  (cache.search = "" ∨
    includes (host.toLowerCase (t.title ++ " " ++ t.notes)) cache.search = true)

/-! ## Import handler -/

mutual
/-- The conversion of a stored value to a primitive throws a `TypeError`.  The template
literal `${v}`, `new Date(v)` and the setter of `dataset.id` perform that conversion.  A
parsed object has no callable property: with an own `toString` key neither `toString`
nor `valueOf` yields a primitive; without one `Object.prototype.toString` does.  An array
is joined, which converts every element that is not `null`. -/
def Json.unprintable : Json → Bool
  | .arr items => Json.unprintableItems items
  | .obj fields => fields.any (fun kv => kv.1 == "toString")
  | _ => false
/-- The function `Json.unprintable` on the elements of an array. -/
def Json.unprintableItems : List Json → Bool
  | [] => false
  | v :: rest => Json.unprintable v || Json.unprintableItems rest
end

mutual
/-- The text `ToString(v)` of a stored value whose conversion does not throw;
`numberText` is the text the host prints for a number. -/
def Json.text (numberText : ℚ → String) : Json → String
  | .null => "null"
  | .bool b => if b then "true" else "false"
  | .num q => numberText q
  | .str s => s
  | .arr items => Json.joinText numberText items
  | .obj _ => "[object Object]"
/-- The text `items.join(",")` of an array: `null` elements give the empty text. -/
def Json.joinText (numberText : ℚ → String) : List Json → String
  | [] => ""
  | v :: rest =>
    (match v with
      | .null => ""
      | _ => Json.text numberText v) ++
    (match rest with
      | [] => ""
      | _ :: _ => "," ++ Json.joinText numberText rest)
end

/-- The text of `${v}` for a property value, `none` when the conversion throws; a missing
property is `undefined`. -/
def templateText (numberText : ℚ → String) (v : Option Json) : Option String :=
  match v with
  | none => some "undefined"
  | some j => if j.unprintable then none else some (j.text numberText)

/-- The conversion of a property value to a primitive throws. -/
def throwsOnRead (v : Option Json) : Bool :=
  match v with
  | none => false
  | some j => j.unprintable

/-- The callback of `cache.tasks.filter(...)` in `render`, on a stored object; `none` when
the template literal throws. -/
def keepStored (host : Host) (numberText : ℚ → String) (cache : Cache) (t : JObject) :
    Option Bool :=
  if cache.filter = "completed" ∧ ¬ isCompleted t then some false
  else if cache.filter = "pending" ∧ isCompleted t then some false
  else if cache.search ≠ "" then
    match templateText numberText (t.get "title"),
      templateText numberText (t.get "notes") with
    | some title, some notes =>
      some (includes (host.toLowerCase (title ++ " " ++ notes)) cache.search)
    | _, _ => none
  else some true

/-- `cache.tasks.filter(callback)` for a callback that may throw: `none` when it does. -/
def filterStored (keep : JObject → Option Bool) : List JObject → Option (List JObject)
  | [] => some []
  | t :: rest =>
    match keep t with
    | none => none
    | some b => (filterStored keep rest).map (fun rows => if b then t :: rows else rows)

/-- The function `renderTask` throws on a stored object: it converts `t.id` (for
`dataset.id`), `t.title`, `t.createdAt` (in `formatDateTime`), and `t.due` and `t.notes`
when they are truthy. -/
def rowThrows (t : JObject) : Bool :=
  throwsOnRead (t.get "id") || throwsOnRead (t.get "title") ||
  throwsOnRead (t.get "createdAt") ||
  (truthy (t.get "due") && throwsOnRead (t.get "due")) ||
  (truthy (t.get "notes") && throwsOnRead (t.get "notes"))

/-- The call `render()` returns normally on a cache of stored objects whose `title` are
strings, as they are after the import check: the filter callback does not throw and
`renderTask` throws on no row.  With string titles the comparator of `sort` can only throw
on a `createdAt` on which `renderTask` throws as well.  The page is taken to hold the
elements the controller looks up. -/
def renderStored (host : Host) (numberText : ℚ → String) (cache : Cache)
    (tasks : List JObject) : Bool :=
  match filterStored (keepStored host numberText cache) tasks with
  | none => false
  | some rows => rows.all (fun t => !rowThrows t)

/-- The body of the `try` block of the import handler, for a document that `JSON.parse`
accepted; `email` is `cache.email`, and `cache` gives the filter and the search text in
force (its tasks are replaced by the reloaded list before `render()` runs).  Every
`throw`, the `TypeError` of a property read on `null` and an exception of `render()`
after the write end in the `catch` clause, which only shows an alert.  The result is the
error caught, if any, together with the storage after the call. -/
def importFile (host : Host) (numberText : ℚ → String) (cache : Cache) (ls : LocalStorage)
    (email : String) (doc : Parsed) : Except ApiError Unit × LocalStorage :=
  match doc with
  | .arr items =>
    match everyCheck items with
    | .error e => (.error e, ls)
    | .ok false => (.error .invalidTasks, ls)
    | .ok true =>
      match persistTasks items with
      | some list =>
        let ls2 := ls.writeTasks email list
        if renderStored host numberText cache (tasksApi.list ls2 email) then (.ok (), ls2)
        else (.error .typeError, ls2)
      | none => (.error .typeError, ls)
  | _ => (.error .invalidFile, ls)

/-! ## Notions used by the statements -/

/-- The comparison `x === y` of the ids of two tasks of one list (`none` is `undefined`). -/
def idEq : Option Json → Option Json → Bool
  | some x, some y => strictEq x y
  | none, none => true
  | _, _ => false

/-- Task ids are unique within a list: no two tasks of it have `===` ids. -/
def DistinctIds (l : List JObject) : Prop :=
  (l.map (fun t => t.get "id")).Pairwise (fun x y => idEq x y = false)

/-- The test `typeof v === 'string'` on a stored property value. -/
def isString : Option Json → Bool
  | some (.str _) => true
  | _ => false

/-- A stored task has a string title and a truthy id. -/
def importable (t : JObject) : Bool := isString (t.get "title") && truthy (t.get "id")

mutual
/-- No number of the parsed value is `Infinity` or `-Infinity`. -/
def Parsed.finite : Parsed → Bool
  | .inf _ => false
  | .arr items => Parsed.finiteItems items
  | .obj fields => Parsed.finiteFields fields
  | _ => true
/-- The function `Parsed.finite` on the elements of an array. -/
def Parsed.finiteItems : List Parsed → Bool
  | [] => true
  | v :: rest => Parsed.finite v && Parsed.finiteItems rest
/-- The function `Parsed.finite` on the properties of an object. -/
def Parsed.finiteFields : List (String × Parsed) → Bool
  | [] => true
  | (_, v) :: rest => Parsed.finite v && Parsed.finiteFields rest
end

/-- An element of an imported array passes the import check: it is a plain object with a
string `title` and a truthy `id`. -/
def Accepted (t : Parsed) : Prop :=
  ∃ fields, t = .obj fields ∧ Parsed.isString (Parsed.getField fields "title") = true ∧
    Parsed.truthy (Parsed.getField fields "id") = true

/-- The comparison `x === y` of two values of one parsed document: primitives compare by
value, two different arrays or objects are never the same reference. -/
def Parsed.strictEq : Parsed → Parsed → Bool
  | .null, .null => true
  | .bool a, .bool b => a == b
  | .num a, .num b => decide (a = b)
  | .inf a, .inf b => a == b
  | .str a, .str b => a == b
  | _, _ => false

/-- The `id` of an element of an imported array (`none` is `undefined`). -/
def Parsed.idOf : Parsed → Option Parsed
  | .obj fields => Parsed.getField fields "id"
  | _ => none

/-- The comparison `x === y` of the ids of two imported elements. -/
def Parsed.idEq : Option Parsed → Option Parsed → Bool
  | some x, some y => Parsed.strictEq x y
  | none, none => true
  | _, _ => false

/-- The value is `Infinity` or `-Infinity`. -/
def Parsed.isInfinite : Option Parsed → Bool
  | some (.inf _) => true
  | _ => false

/-- The ids of the imported elements are pairwise distinct, and at most one of them is
`Infinity` or `-Infinity`. -/
def ImportedIdsDistinct (items : List Parsed) : Prop :=
  (items.map Parsed.idOf).Pairwise
    (fun x y => Parsed.idEq x y = false ∧
      ¬ (Parsed.isInfinite x = true ∧ Parsed.isInfinite y = true))

/-- The criterion `specKeep` can be computed. -/
instance (host : Host) (cache : Cache) (t : Task) : Decidable (specKeep host cache t) := by
  unfold specKeep
  exact inferInstance

/-- The second key of the comparator of `render`: the value it returns for two tasks with
the same `completed`. -/
def secondKey (host : Host) (sort : String) (a b : Task) : Int :=
  if sort = "alpha" then host.localeCompare a.title b.title
  else
    match host.dateValue b.createdAt, host.dateValue a.createdAt with
    | some tb, some ta => tb - ta
    | _, _ => 0

/-- A consistent comparator on strings, as ECMAScript requires of `localeCompare`: the
relation `cmp(a, b) ≤ 0` is total and transitive. -/
def ConsistentComparator (cmp : String → String → Int) : Prop :=
  (∀ a b, cmp a b ≤ 0 ∨ cmp b a ≤ 0) ∧ (∀ a b c, cmp a b ≤ 0 → cmp b c ≤ 0 → cmp a c ≤ 0)

/-- Case-insensitive lexicographic order of two titles: the lower-cased texts are in
lexicographic order. -/
def caseInsensitiveLe (host : Host) (a b : String) : Prop :=
  host.toLowerCase a ≤ host.toLowerCase b

/-! ## Sample data -/

/-- A storage with no user, no session and no task. -/
def emptyStorage : LocalStorage := { users := [], session := none, tasks := fun _ => [] }

/-- The parsed document `[{"title":"x","id":1e400}]`. -/
def overflowDoc : Parsed := .arr [.obj [("title", .str "x"), ("id", .inf false)]]

/-- The parsed document `[{"id":"a","title":"x"},{"id":"a","title":"y"}]`. -/
def duplicateDoc : Parsed :=
  .arr [.obj [("id", .str "a"), ("title", .str "x")],
        .obj [("id", .str "a"), ("title", .str "y")]]

/-- The cache of a signed-in user before any task is loaded: filter `all`, no search. -/
def initialCache : Cache :=
  { tasks := [], email := some "a@b.c", filter := "all", search := "", sort := "created" }

/-- The text of an integer, in decimal digits.  The examples print no other number. -/
def integerText (q : ℚ) : String := toString q.num

/-- The parsed document `[{"title":"x","id":0}]`. -/
def zeroIdDoc : Parsed := .arr [.obj [("title", .str "x"), ("id", .num 0)]]

/-- The parsed document `[{"title":"x","id":"k","notes":{"toString":1}}]`. -/
def unprintableDoc : Parsed :=
  .arr [.obj [("title", .str "x"), ("id", .str "k"), ("notes", .obj [("toString", .num 1)])]]

/-- The parsed document `[{"title":"a","id":1e400},{"title":"b","id":-1e400}]`. -/
def signedOverflowDoc : Parsed :=
  .arr [.obj [("title", .str "a"), ("id", .inf false)],
        .obj [("title", .str "b"), ("id", .inf true)]]

/-- Two stored tasks with the ids `"1"` and `"2"`. -/
def twoTasks : List JObject :=
  [[("id", .str "1"), ("title", .str "x")], [("id", .str "2"), ("title", .str "y")]]

/-- A storage whose user `a@b.c` has the tasks `twoTasks`. -/
def twoTaskStorage : LocalStorage := emptyStorage.writeTasks "a@b.c" twoTasks

/-- The instant `2024-01-01T00:00:00.000Z`. -/
def newYear : IsoTime := { text := "2024-01-01T00:00:00.000Z", nonempty := by decide }

/-- A task of the data model with the given id, title, `completed` and `createdAt`. -/
def sampleTask (id title : String) (completed : Bool) (createdAt : String) : Task :=
  { id := id, title := title, notes := "", due := none, completed := completed,
    createdAt := createdAt, updatedAt := createdAt }

/-- Forty tasks, of which the first twenty-three are completed. -/
def fortyTasks : List Task :=
  (List.range 40).map
    (fun i => sampleTask (toString i) "task" (decide (i < 23)) "2024-01-01T00:00:00.000Z")

/-- A cache holding `fortyTasks`. -/
def fortyCache : Cache :=
  { tasks := fortyTasks, email := some "a@b.c", filter := "all", search := "",
    sort := "created" }

/-- The number written by the decimal digits `cs`, if they all are digits. -/
def decimalValue (cs : List Char) : Option Nat :=
  cs.foldl
    (fun acc c =>
      match acc with
      | some n => if c.isDigit then some (n * 10 + (c.toNat - 48)) else none
      | none => none)
    (some 0)

/-- The number of days from 1970-01-01 to a date of the Gregorian calendar. -/
def daysFromCivil (year month day : Int) : Int :=
  let y := if month ≤ 2 then year - 1 else year
  let era := y / 400
  let yoe := y - era * 400
  let mp := if month > 2 then month - 3 else month + 9
  let doy := (153 * mp + 2) / 5 + day - 1
  let doe := yoe * 365 + yoe / 4 - yoe / 100 + doy
  era * 146097 + doe - 719468

/-- The time value of a text of the form `YYYY-MM-DDTHH:mm:ss.sssZ`, in milliseconds
since 1970-01-01T00:00:00.000Z; `none` for any other text. -/
def isoDateValue (text : String) : Option Int :=
  let cs := text.data
  if cs.length = 24 ∧ cs.get? 4 = some '-' ∧ cs.get? 7 = some '-' ∧ cs.get? 10 = some 'T' ∧
      cs.get? 13 = some ':' ∧ cs.get? 16 = some ':' ∧ cs.get? 19 = some '.' ∧
      cs.get? 23 = some 'Z' then
    match decimalValue (cs.take 4), decimalValue ((cs.drop 5).take 2),
      decimalValue ((cs.drop 8).take 2), decimalValue ((cs.drop 11).take 2),
      decimalValue ((cs.drop 14).take 2), decimalValue ((cs.drop 17).take 2),
      decimalValue ((cs.drop 20).take 3) with
    | some y, some mo, some d, some h, some mi, some sec, some ms =>
      if 1 ≤ mo ∧ mo ≤ 12 ∧ 1 ≤ d ∧ d ≤ 31 ∧ h < 24 ∧ mi < 60 ∧ sec < 60 then
        some ((((daysFromCivil y mo d * 24 + h) * 60 + mi) * 60 + sec) * 1000 + ms)
      else none
    | _, _, _, _, _, _, _ => none
  else none

/-- A host for the examples: it lower-cases the ASCII letters, compares two strings by
the code points of their lower-cased texts and reads the dates `toISOString` prints. -/
def sampleHost : Host :=
  { toLowerCase := fun s => s.map Char.toLower
    localeCompare := fun a b =>
      if a.map Char.toLower < b.map Char.toLower then -1
      else if b.map Char.toLower < a.map Char.toLower then 1 else 0
    dateValue := isoDateValue }

/-- The characters the root collation puts before the digits, in its order: white space,
then punctuation, then symbols, then the dollar sign. -/
def rootPunctuation : List Char :=
  "\t\n\r _-,;:!?.\x27\x22()[]\x7b\x7d@*/\x5c&#%\x60^+<=>|~$".data

/-- The primary weight of an ASCII character in the root collation: the characters of
`rootPunctuation` come first, then the digits, then the letters whatever their case. -/
def rootPrimary (c : Char) : Nat :=
  if c.isDigit then 100 + (c.toNat - 48)
  else if c.isAlpha then 200 + (c.toLower.toNat - 97)
  else if rootPunctuation.indexOf c < rootPunctuation.length then rootPunctuation.indexOf c
  else 1000 + c.toNat

/-- The case weight of a character in the root collation: lower case comes first. -/
def rootCase (c : Char) : Nat := if c.isUpper then 1 else 0

/-- The lexicographic comparison of two lists of weights: negative, zero or positive. -/
def compareWeights : List Nat → List Nat → Int
  | [], [] => 0
  | [], _ :: _ => -1
  | _ :: _, [] => 1
  | x :: xs, y :: ys => if x < y then -1 else if y < x then 1 else compareWeights xs ys

/-- The comparison `a.localeCompare(b)` of the root collation on ASCII texts: the primary
weights decide, and the case only when they are all equal. -/
def rootCompare (a b : String) : Int :=
  if compareWeights (a.data.map rootPrimary) (b.data.map rootPrimary) ≠ 0 then
    compareWeights (a.data.map rootPrimary) (b.data.map rootPrimary)
  else compareWeights (a.data.map rootCase) (b.data.map rootCase)

/-- A host with the collation browsers use in the root locale, on ASCII texts: it
lower-cases the ASCII letters, compares with `rootCompare` and reads the dates
`toISOString` prints. -/
def rootHost : Host :=
  { toLowerCase := fun s => String.mk (s.data.map Char.toLower)
    localeCompare := rootCompare
    dateValue := isoDateValue }

/-- A cache of two pending tasks with the titles `1` and `_`, sorted by title. -/
def symbolCache : Cache :=
  { tasks := [sampleTask "1" "1" false "2024-01-01T08:00:00.000Z",
              sampleTask "2" "_" false "2024-01-02T08:00:00.000Z"],
    email := some "a@b.c", filter := "all", search := "", sort := "alpha" }

/-- A cache of three pending tasks, sorted by creation time, whose second task has a
`createdAt` that is not a date. -/
def gapCache : Cache :=
  { tasks := [sampleTask "1" "first" false "2024-01-01T08:00:00.000Z",
              sampleTask "2" "second" false "soon",
              sampleTask "3" "third" false "2024-01-03T08:00:00.000Z"],
    email := some "a@b.c", filter := "all", search := "", sort := "created" }

/-- Three tasks created on three consecutive days, the second one completed. -/
def threeTasks : List Task :=
  [sampleTask "1" "Buy milk" false "2024-01-01T08:00:00.000Z",
   sampleTask "2" "apply for visa" true "2024-01-02T08:00:00.000Z",
   sampleTask "3" "call Bob" false "2024-01-03T08:00:00.000Z"]

/-- A cache holding `threeTasks`, sorted by title. -/
def alphaCache : Cache :=
  { tasks := threeTasks, email := some "a@b.c", filter := "all", search := "",
    sort := "alpha" }

/-- A cache holding `threeTasks`, showing the pending ones, sorted by creation time. -/
def pendingCache : Cache :=
  { tasks := threeTasks, email := some "a@b.c", filter := "pending", search := "",
    sort := "created" }

/-- A registered user who has never logged in. -/
def ann : User :=
  { id := "u1", name := "Ann", email := "a@b.c", password := "pw", createdAt := newYear,
    lastLogin := none }

/-- A storage whose only user is `ann`. -/
def annStorage : LocalStorage := emptyStorage.writeUsers [ann]

/-! # Theorems -/

/-! ## Lists -/

theorem findIndex_eq_none {α : Type} (pred : α → Bool) (l : List α) :
    findIndex pred l = none ↔ ∀ x ∈ l, pred x = false := by
  induction l with
  | nil => simp [findIndex]
  | cons x xs ih =>
    by_cases hx : pred x = true
    · simp [findIndex, hx]
    · simp [findIndex, hx, ih]

theorem findIndex_eq_some {α : Type} (pred : α → Bool) (l : List α) (i : Nat)
    (h : findIndex pred l = some i) :
    ∃ pre x post, l = pre ++ x :: post ∧ pre.length = i ∧ pred x = true ∧
      ∀ y ∈ pre, pred y = false := by
  induction l generalizing i with
  | nil => simp [findIndex] at h
  | cons x xs ih =>
    by_cases hx : pred x = true
    · simp [findIndex, hx] at h
      exact ⟨[], x, xs, by simp, by simpa using h, hx, by simp⟩
    · simp only [findIndex, hx] at h
      cases hf : findIndex pred xs with
      | none => simp [hf] at h
      | some j =>
        simp [hf] at h
        obtain ⟨pre, y, post, hl, hlen, hy, hpre⟩ := ih j hf
        refine ⟨x :: pre, y, post, by simp [hl], by simp [hlen, h], hy, ?_⟩
        intro z hz
        rcases List.mem_cons.1 hz with rfl | hz
        · simpa using hx
        · exact hpre z hz

theorem get?_append_cons {α : Type} (pre post : List α) (x : α) :
    (pre ++ x :: post).get? pre.length = some x := by
  induction pre with
  | nil => rfl
  | cons a pre ih => simpa using ih

theorem set_append_cons {α : Type} (pre post : List α) (x y : α) :
    (pre ++ x :: post).set pre.length y = pre ++ y :: post := by
  induction pre with
  | nil => rfl
  | cons a pre ih => simp [ih]

/-! ## Auth service -/

/-- C1: `auth.register` fails (with the message of a duplicate email) exactly when a
stored user already has that email, a failed call leaves the storage as it was, and after
any call with an email a second call with the same email fails and keeps the number of
users. -/
theorem register_duplicate_email (ls : LocalStorage) (name email password id : String)
    (now : IsoTime) :
    ((auth.register ls name email password id now).1.ok = false ↔
        ∃ u ∈ ls.users, u.email = email) ∧
    ((auth.register ls name email password id now).1.ok = false →
        (auth.register ls name email password id now).1.message = "Email already exists" ∧
        (auth.register ls name email password id now).2 = ls) ∧
    (∀ (name2 password2 id2 : String) (now2 : IsoTime),
        (auth.register (auth.register ls name email password id now).2
            name2 email password2 id2 now2).1.ok = false ∧
        (auth.register (auth.register ls name email password id now).2
            name2 email password2 id2 now2).2.users.length =
          (auth.register ls name email password id now).2.users.length) := by
  have key : ∀ (l : LocalStorage) (n e p i : String) (t : IsoTime),
      (auth.register l n e p i t).1.ok = false ↔ ∃ u ∈ l.users, u.email = e := by
    intro l n e p i t
    by_cases h : ∃ u ∈ l.users, u.email = e
    · have h2 : (l.users.any fun u => u.email == e) = true := by simpa using h
      simp [auth.register, h2, h]
    · have h2 : ¬ (l.users.any fun u => u.email == e) = true := by simpa using h
      simp [auth.register, h2, h]
  have same : ∀ (l : LocalStorage) (n e p i : String) (t : IsoTime),
      (auth.register l n e p i t).1.ok = false →
      (auth.register l n e p i t).1.message = "Email already exists" ∧
        (auth.register l n e p i t).2 = l := by
    intro l n e p i t hf
    have h := (key l n e p i t).1 hf
    have h2 : (l.users.any fun u => u.email == e) = true := by simpa using h
    simp [auth.register, h2]
  have present : ∃ u ∈ (auth.register ls name email password id now).2.users,
      u.email = email := by
    by_cases h : ∃ u ∈ ls.users, u.email = email
    · have h2 : (ls.users.any fun u => u.email == email) = true := by simpa using h
      simpa [auth.register, h2] using h
    · have h2 : ¬ (ls.users.any fun u => u.email == email) = true := by simpa using h
      simp only [auth.register, h2, LocalStorage.writeUsers]
      exact ⟨_, List.mem_append_right _ (List.mem_singleton_self _), rfl⟩
  refine ⟨key ls name email password id now, same ls name email password id now, ?_⟩
  intro name2 password2 id2 now2
  have hf := (key (auth.register ls name email password id now).2 name2 email password2
    id2 now2).2 present
  exact ⟨hf, by rw [(same _ _ _ _ _ _ hf).2]⟩

/-- C2: when some stored user has the given email and password, `auth.login` succeeds for
the first such user: the session it writes carries that user's previous `lastLogin`, or
the user's `createdAt` when `lastLogin` was `null`, and the stored user list differs only
in that this user's `lastLogin` is `now`; when no stored user matches, the call fails and
the storage is left as it was. -/
theorem login_session_and_stamp (ls : LocalStorage) (email password : String)
    (now : IsoTime) :
    ((∃ u ∈ ls.users, u.email = email ∧ u.password = password) →
      ∃ pre u post, ls.users = pre ++ u :: post ∧
        (∀ v ∈ pre, ¬ (v.email = email ∧ v.password = password)) ∧
        u.email = email ∧ u.password = password ∧
        (auth.login ls email password now).1.ok = true ∧
        (auth.login ls email password now).1.user = some { u with lastLogin := some now } ∧
        (auth.login ls email password now).2.session =
          some { id := u.id, email := u.email, name := u.name,
                 lastLogin := u.lastLogin.getD u.createdAt } ∧
        (auth.login ls email password now).2.users =
          pre ++ { u with lastLogin := some now } :: post ∧
        (auth.login ls email password now).2.tasks = ls.tasks) ∧
    ((¬ ∃ u ∈ ls.users, u.email = email ∧ u.password = password) →
      (auth.login ls email password now).1.ok = false ∧
      (auth.login ls email password now).1.message = "Invalid email or password" ∧
      (auth.login ls email password now).2 = ls) := by
  constructor
  · intro hex
    cases hf : findIndex (fun u => u.email == email && u.password == password) ls.users with
    | none =>
      rw [findIndex_eq_none] at hf
      obtain ⟨u, hu, he, hp⟩ := hex
      have := hf u hu
      simp [he, hp] at this
    | some idx =>
      obtain ⟨pre, u, post, hl, hlen, hu, hpre⟩ := findIndex_eq_some _ _ _ hf
      have hu2 : u.email = email ∧ u.password = password := by simpa using hu
      have hprior : u.lastLogin.getD u.createdAt = lastLoginOr u.lastLogin u.createdAt := by
        cases hll : u.lastLogin with
        | none => simp [lastLoginOr]
        | some t => simp [lastLoginOr, t.nonempty]
      refine ⟨pre, u, post, hl, ?_, hu2.1, hu2.2, ?_⟩
      · intro v hv
        have := hpre v hv
        simpa using this
      · subst hlen
        have hg : ls.users.get? pre.length = some u := by rw [hl]; exact get?_append_cons _ _ _
        have hs : ∀ y, ls.users.set pre.length y = pre ++ y :: post := by
          intro y; rw [hl]; exact set_append_cons _ _ _ _
        have hg2 : ls.users[pre.length]? = some u := by
          rw [← List.get?_eq_getElem?]; exact hg
        simp [auth.login, hf, hg2, hs, hprior, LocalStorage.writeUsers,
          LocalStorage.writeSession]
  · intro hno
    have hf : findIndex (fun u => u.email == email && u.password == password) ls.users
        = none := by
      rw [findIndex_eq_none]
      intro x hx
      have : ¬ (x.email = email ∧ x.password = password) := fun h => hno ⟨x, hx, h⟩
      simpa using this
    simp [auth.login, hf]

/-! ## Objects -/

theorem JObject.get_set (o : JObject) (k k2 : String) (v : Json) :
    (o.set k v).get k2 = if k = k2 then some v else o.get k2 := by
  induction o with
  | nil => simp [JObject.set, JObject.get]
  | cons kv rest ih =>
    obtain ⟨k1, v1⟩ := kv
    by_cases h1 : k1 = k
    · subst h1
      by_cases h2 : k1 = k2
      · simp [JObject.set, JObject.get, h2]
      · simp [JObject.set, JObject.get, h2]
    · by_cases h2 : k1 = k2
      · subst h2
        have h3 : ¬ k = k1 := fun h => h1 h.symm
        simp [JObject.set, JObject.get, h1, h3]
      · simp [JObject.set, JObject.get, h1, h2, ih]

theorem JObject.get_spread_of_absent (patch o : JObject) (k : String)
    (h : patch.get k = none) : (o.spread patch).get k = o.get k := by
  induction patch generalizing o with
  | nil => rfl
  | cons kv rest ih =>
    obtain ⟨k1, v1⟩ := kv
    by_cases h1 : k1 = k
    · simp [JObject.get, h1] at h
    · have hrest : JObject.get rest k = none := by simpa [JObject.get, h1] using h
      have := ih (JObject.set o k1 v1) hrest
      simp only [JObject.spread, List.foldl_cons] at this ⊢
      rw [this, JObject.get_set]
      simp [h1]

theorem JObject.get_eq_none_of_not_mem (o : JObject) (k : String)
    (h : k ∉ o.map Prod.fst) : o.get k = none := by
  induction o with
  | nil => rfl
  | cons kv rest ih =>
    obtain ⟨k1, v1⟩ := kv
    simp only [List.map_cons, List.mem_cons, not_or] at h
    have h1 : ¬ k1 = k := fun e => h.1 e.symm
    simp [JObject.get, h1, ih h.2]

theorem JObject.get_spread_of_present (patch o : JObject) (k : String) (v : Json)
    (hk : (patch.map Prod.fst).Nodup) (h : patch.get k = some v) :
    (o.spread patch).get k = some v := by
  induction patch generalizing o with
  | nil => simp [JObject.get] at h
  | cons kv rest ih =>
    obtain ⟨k1, v1⟩ := kv
    simp only [List.map_cons, List.nodup_cons] at hk
    by_cases h1 : k1 = k
    · subst h1
      have hv : v1 = v := by simpa [JObject.get] using h
      subst hv
      have hrest : JObject.get rest k1 = none := JObject.get_eq_none_of_not_mem _ _ hk.1
      have := JObject.get_spread_of_absent rest (JObject.set o k1 v1) k1 hrest
      simp only [JObject.spread, List.foldl_cons] at this ⊢
      rw [this, JObject.get_set]
      simp
    · have hrest : JObject.get rest k = some v := by simpa [JObject.get, h1] using h
      have := ih (JObject.set o k1 v1) hk.2 hrest
      simpa only [JObject.spread, List.foldl_cons] using this

/-! ## Task service -/

/-- C3: after `tasksApi.clearCompleted` the stored list of the user is a sub-list of the
old one (same tasks, same relative order), holds no completed task, and holds every
sub-list of the old list that has no completed task, so every task that is not completed
stays; a task is completed when its `completed` is truthy, which for a boolean is the
boolean itself.  The users, the session and the lists of other emails are not written. -/
theorem clearCompleted_keeps_pending (ls : LocalStorage) (email : String) :
    ((tasksApi.clearCompleted ls email).tasks email).Sublist (ls.tasks email) ∧
    (∀ t ∈ (tasksApi.clearCompleted ls email).tasks email, isCompleted t = false) ∧
    (∀ l : List JObject, l.Sublist (ls.tasks email) → (∀ t ∈ l, isCompleted t = false) →
        l.Sublist ((tasksApi.clearCompleted ls email).tasks email)) ∧
    (∀ t ∈ ls.tasks email, isCompleted t = false →
        t ∈ (tasksApi.clearCompleted ls email).tasks email) ∧
    (∀ (t : JObject) (b : Bool), t.get "completed" = some (.bool b) → isCompleted t = b) ∧
    (∀ e, e ≠ email → (tasksApi.clearCompleted ls email).tasks e = ls.tasks e) ∧
    (tasksApi.clearCompleted ls email).users = ls.users ∧
    (tasksApi.clearCompleted ls email).session = ls.session := by
  have hst : (tasksApi.clearCompleted ls email).tasks email
      = (ls.tasks email).filter (fun t => !isCompleted t) := by
    simp [tasksApi.clearCompleted, LocalStorage.writeTasks]
  refine ⟨?_, ?_, ?_, ?_, ?_, ?_, rfl, rfl⟩
  · rw [hst]; exact List.filter_sublist _
  · intro t ht
    rw [hst, List.mem_filter] at ht
    simpa using ht.2
  · intro l hl hall
    rw [hst]
    have h1 := hl.filter (fun t => !isCompleted t)
    have h2 : l.filter (fun t => !isCompleted t) = l := by
      rw [List.filter_eq_self]
      intro t ht
      simp [hall t ht]
    rwa [h2] at h1
  · intro t ht hc
    rw [hst, List.mem_filter]
    exact ⟨ht, by simp [hc]⟩
  · intro t b hb
    cases b <;> simp [isCompleted, hb, truthy]
  · intro e he
    simp [tasksApi.clearCompleted, LocalStorage.writeTasks, he]

/-- C9: `tasksApi.update` throws `Task not found` exactly when no stored task of the user
has the id, and then writes nothing; otherwise it replaces the first task with that id,
in place, by the old task with the patch spread over it and `updatedAt` set to `now`:
the list keeps its length and order, every other task is unchanged, `updatedAt` of the
new task is `now` whatever the patch holds, every other field the patch defines has the
patch's value and every remaining field has the old value. -/
theorem update_contract (ls : LocalStorage) (email : String) (id : Json) (patch : JObject)
    (now : IsoTime) :
    ((tasksApi.update ls email id patch now).1 = .error .taskNotFound ↔
        ∀ t ∈ ls.tasks email, idIs id t = false) ∧
    ((∀ t ∈ ls.tasks email, idIs id t = false) →
        (tasksApi.update ls email id patch now).2 = ls) ∧
    ((∃ t ∈ ls.tasks email, idIs id t = true) →
      ∃ pre old post, ls.tasks email = pre ++ old :: post ∧
        (∀ t ∈ pre, idIs id t = false) ∧ idIs id old = true ∧
        (tasksApi.update ls email id patch now).1 =
          .ok ((old.spread patch).set "updatedAt" (.str now.text)) ∧
        (tasksApi.update ls email id patch now).2.tasks email =
          pre ++ ((old.spread patch).set "updatedAt" (.str now.text)) :: post ∧
        ((tasksApi.update ls email id patch now).2.tasks email).length =
          (ls.tasks email).length ∧
        ((old.spread patch).set "updatedAt" (.str now.text)).get "updatedAt" =
          some (.str now.text) ∧
        (∀ k v, k ≠ "updatedAt" → (patch.map Prod.fst).Nodup → patch.get k = some v →
          ((old.spread patch).set "updatedAt" (.str now.text)).get k = some v) ∧
        (∀ k, k ≠ "updatedAt" → patch.get k = none →
          ((old.spread patch).set "updatedAt" (.str now.text)).get k = old.get k) ∧
        (∀ e, e ≠ email → (tasksApi.update ls email id patch now).2.tasks e = ls.tasks e) ∧
        (tasksApi.update ls email id patch now).2.users = ls.users ∧
        (tasksApi.update ls email id patch now).2.session = ls.session) := by
  cases hf : findIndex (idIs id) (ls.tasks email) with
  | none =>
    have hall := (findIndex_eq_none _ _).1 hf
    refine ⟨?_, ?_, ?_⟩
    · simp only [tasksApi.update, hf, true_iff]
      exact hall
    · intro _
      simp [tasksApi.update, hf]
    · rintro ⟨t, ht, hid⟩
      rw [hall t ht] at hid
      cases hid
  | some idx =>
    obtain ⟨pre, old, post, hl, hlen, hold, hpre⟩ := findIndex_eq_some _ _ _ hf
    subst hlen
    have hg : (ls.tasks email)[pre.length]? = some old := by
      rw [← List.get?_eq_getElem?, hl]; exact get?_append_cons _ _ _
    have hs : ∀ y, (ls.tasks email).set pre.length y = pre ++ y :: post := by
      intro y; rw [hl]; exact set_append_cons _ _ _ _
    have hnot : ¬ ∀ t ∈ ls.tasks email, idIs id t = false := by
      intro h
      have := h old (by rw [hl]; simp)
      rw [hold] at this
      cases this
    refine ⟨?_, fun h => absurd h hnot, ?_⟩
    · simp only [tasksApi.update, hf, hg, List.get?_eq_getElem?]
      constructor
      · intro h; cases h
      · intro h; exact absurd h hnot
    · intro _
      refine ⟨pre, old, post, hl, hpre, hold, ?_, ?_, ?_, ?_, ?_, ?_, ?_, ?_, ?_⟩
      · simp [tasksApi.update, hf, hg]
      · simp [tasksApi.update, hf, hg, hs, LocalStorage.writeTasks]
      · have h5 : (tasksApi.update ls email id patch now).2.tasks email =
            pre ++ ((old.spread patch).set "updatedAt" (.str now.text)) :: post := by
          simp [tasksApi.update, hf, hg, hs, LocalStorage.writeTasks]
        rw [h5, hl]; simp
      · rw [JObject.get_set]; simp
      · intro k v hk hnd hv
        rw [JObject.get_set, if_neg (fun h => hk h.symm)]
        exact JObject.get_spread_of_present _ _ _ _ hnd hv
      · intro k hk hv
        rw [JObject.get_set, if_neg (fun h => hk h.symm)]
        exact JObject.get_spread_of_absent _ _ _ hv
      · intro e he
        simp [tasksApi.update, hf, hg, LocalStorage.writeTasks, he]
      · simp [tasksApi.update, hf, hg, LocalStorage.writeTasks]
      · simp [tasksApi.update, hf, hg, LocalStorage.writeTasks]

/-! ## Import and export -/

mutual
theorem persist_reparse : ∀ j : Json, (Json.reparse j).persist = j
  | .null => rfl
  | .bool _ => rfl
  | .num _ => rfl
  | .str _ => rfl
  | .arr items => by
    simp only [Json.reparse, Parsed.persist, persistItems_reparseItems items]
  | .obj fields => by
    simp only [Json.reparse, Parsed.persist, persistFields_reparseFields fields]
theorem persistItems_reparseItems : ∀ l : List Json,
    Parsed.persistItems (Json.reparseItems l) = l
  | [] => rfl
  | v :: rest => by
    simp only [Json.reparseItems, Parsed.persistItems, persist_reparse v,
      persistItems_reparseItems rest]
theorem persistFields_reparseFields : ∀ l : List (String × Json),
    Parsed.persistFields (Json.reparseFields l) = l
  | [] => rfl
  | (k, v) :: rest => by
    simp only [Json.reparseFields, Parsed.persistFields, persist_reparse v,
      persistFields_reparseFields rest]
end

mutual
theorem reparse_persist : ∀ v : Parsed, v.finite = true → Json.reparse v.persist = v
  | .null, _ => rfl
  | .bool _, _ => rfl
  | .num _, _ => rfl
  | .str _, _ => rfl
  | .inf _, h => by simp [Parsed.finite] at h
  | .arr items, h => by
    simp only [Parsed.finite] at h
    simp only [Parsed.persist, Json.reparse, reparseItems_persistItems items h]
  | .obj fields, h => by
    simp only [Parsed.finite] at h
    simp only [Parsed.persist, Json.reparse, reparseFields_persistFields fields h]
theorem reparseItems_persistItems : ∀ l : List Parsed, Parsed.finiteItems l = true →
    Json.reparseItems (Parsed.persistItems l) = l
  | [], _ => rfl
  | v :: rest, h => by
    simp only [Parsed.finiteItems, Bool.and_eq_true] at h
    simp only [Parsed.persistItems, Json.reparseItems, reparse_persist v h.1,
      reparseItems_persistItems rest h.2]
theorem reparseFields_persistFields : ∀ l : List (String × Parsed),
    Parsed.finiteFields l = true → Json.reparseFields (Parsed.persistFields l) = l
  | [], _ => rfl
  | (k, v) :: rest, h => by
    simp only [Parsed.finiteFields, Bool.and_eq_true] at h
    simp only [Parsed.persistFields, Json.reparseFields, reparse_persist v h.1,
      reparseFields_persistFields rest h.2]
end

theorem getField_reparseFields (fields : JObject) (k : String) :
    Parsed.getField (Json.reparseFields fields) k = (fields.get k).map Json.reparse := by
  induction fields with
  | nil => rfl
  | cons kv rest ih =>
    obtain ⟨k1, v1⟩ := kv
    by_cases h : k1 = k
    · simp [Json.reparseFields, Parsed.getField, JObject.get, h]
    · simp [Json.reparseFields, Parsed.getField, JObject.get, h, ih]

theorem get_persistFields (fields : List (String × Parsed)) (k : String) :
    JObject.get (Parsed.persistFields fields) k =
      (Parsed.getField fields k).map Parsed.persist := by
  induction fields with
  | nil => rfl
  | cons kv rest ih =>
    obtain ⟨k1, v1⟩ := kv
    by_cases h : k1 = k
    · simp [Parsed.persistFields, Parsed.getField, JObject.get, h]
    · simp [Parsed.persistFields, Parsed.getField, JObject.get, h, ih]

theorem isString_reparse (v : Option Json) :
    Parsed.isString (v.map Json.reparse) = isString v := by
  rcases v with _ | v
  · rfl
  · cases v <;> rfl

theorem truthy_reparse (v : Option Json) :
    Parsed.truthy (v.map Json.reparse) = truthy v := by
  rcases v with _ | v
  · rfl
  · cases v <;> rfl

theorem isString_persist (v : Option Parsed) :
    isString (v.map Parsed.persist) = Parsed.isString v := by
  rcases v with _ | v
  · rfl
  · cases v <;> rfl

theorem importCheck_reparse (t : JObject) :
    importCheck (.obj (Json.reparseFields t)) = some (importable t) := by
  simp [importCheck, importable, getField_reparseFields, isString_reparse, truthy_reparse]

theorem importCheck_eq_true (t : Parsed) : importCheck t = some true ↔ Accepted t := by
  cases t with
  | obj fields =>
    simp only [importCheck, Accepted, Option.some.injEq, Bool.and_eq_true]
    constructor
    · intro h; exact ⟨fields, rfl, h.1, h.2⟩
    · rintro ⟨f, hf, h1, h2⟩
      cases hf
      exact ⟨h1, h2⟩
  | _ => simp [importCheck, Accepted]

theorem everyCheck_eq_true (items : List Parsed) :
    everyCheck items = .ok true ↔ ∀ t ∈ items, Accepted t := by
  induction items with
  | nil => simp [everyCheck]
  | cons t rest ih =>
    cases hc : importCheck t with
    | none =>
      have : ¬ Accepted t := fun h => by
        rw [← importCheck_eq_true, hc] at h; cases h
      simp [everyCheck, hc, this]
    | some b =>
      cases b with
      | false =>
        have : ¬ Accepted t := fun h => by
          rw [← importCheck_eq_true, hc] at h; cases h
        simp [everyCheck, hc, this]
      | true =>
        have : Accepted t := (importCheck_eq_true t).1 hc
        simp [everyCheck, hc, this, ih]

theorem persistTasks_of_accepted (items : List Parsed) (h : ∀ t ∈ items, Accepted t) :
    ∃ list, persistTasks items = some list ∧
      list.map Json.obj = Parsed.persistItems items := by
  induction items with
  | nil => exact ⟨[], rfl, rfl⟩
  | cons t rest ih =>
    obtain ⟨list, hl, hm⟩ := ih (fun x hx => h x (List.mem_cons_of_mem _ hx))
    obtain ⟨fields, rfl, -, -⟩ := h t (List.mem_cons_self _ _)
    exact ⟨Parsed.persistFields fields :: list, by simp [persistTasks, hl],
      by simp [Parsed.persistItems, Parsed.persist, hm]⟩

theorem persistTasks_reparse (cache : List JObject) :
    persistTasks (cache.map (fun t => .obj (Json.reparseFields t))) = some cache := by
  induction cache with
  | nil => rfl
  | cons t rest ih => simp [persistTasks, ih, persistFields_reparseFields]

theorem reparseItems_map_obj (list : List JObject) :
    Json.reparseItems (list.map Json.obj) =
      list.map (fun t => Parsed.obj (Json.reparseFields t)) := by
  induction list with
  | nil => rfl
  | cons t rest ih => simp [Json.reparseItems, Json.reparse, ih]

theorem update_cases (ls : LocalStorage) (email : String) (id : Json) (patch : JObject)
    (now : IsoTime) :
    ((∀ t ∈ ls.tasks email, idIs id t = false) ∧
      tasksApi.update ls email id patch now = (.error .taskNotFound, ls)) ∨
    (∃ pre old post, ls.tasks email = pre ++ old :: post ∧
      (∀ t ∈ pre, idIs id t = false) ∧ idIs id old = true ∧
      tasksApi.update ls email id patch now =
        (.ok ((old.spread patch).set "updatedAt" (.str now.text)),
          ls.writeTasks email
            (pre ++ ((old.spread patch).set "updatedAt" (.str now.text)) :: post))) := by
  cases hf : findIndex (idIs id) (ls.tasks email) with
  | none =>
    exact Or.inl ⟨(findIndex_eq_none _ _).1 hf, by simp [tasksApi.update, hf]⟩
  | some idx =>
    obtain ⟨pre, old, post, hl, hlen, hold, hpre⟩ := findIndex_eq_some _ _ _ hf
    subst hlen
    have hg : (ls.tasks email)[pre.length]? = some old := by
      rw [← List.get?_eq_getElem?, hl]; exact get?_append_cons _ _ _
    have hs : ∀ y, (ls.tasks email).set pre.length y = pre ++ y :: post := by
      intro y; rw [hl]; exact set_append_cons _ _ _ _
    exact Or.inr ⟨pre, old, post, hl, hpre, hold, by simp [tasksApi.update, hf, hg, hs]⟩

theorem importFile_cases (host : Host) (numberText : ℚ → String) (view : Cache)
    (ls : LocalStorage) (email : String) (doc : Parsed) :
    (∃ items list, doc = .arr items ∧ (∀ t ∈ items, Accepted t) ∧
      persistTasks items = some list ∧ list.map Json.obj = Parsed.persistItems items ∧
      importFile host numberText view ls email doc =
        (if renderStored host numberText view list = true then .ok ()
          else .error .typeError, ls.writeTasks email list)) ∨
    ((¬ ∃ items, doc = .arr items ∧ ∀ t ∈ items, Accepted t) ∧
      ∃ e, importFile host numberText view ls email doc = (.error e, ls)) := by
  cases doc with
  | arr items =>
    by_cases h : ∀ t ∈ items, Accepted t
    · obtain ⟨list, hl, hm⟩ := persistTasks_of_accepted items h
      left
      refine ⟨items, list, rfl, h, hl, hm, ?_⟩
      simp only [importFile, (everyCheck_eq_true items).2 h, hl, tasksApi.list,
        LocalStorage.writeTasks, if_true]
      split <;> rfl
    · right
      refine ⟨?_, ?_⟩
      · rintro ⟨items2, he, h2⟩
        cases he
        exact h h2
      · have hne : everyCheck items ≠ .ok true := fun e => h ((everyCheck_eq_true items).1 e)
        cases hc : everyCheck items with
        | error e => exact ⟨e, by simp [importFile, hc]⟩
        | ok b =>
          cases b with
          | false => exact ⟨.invalidTasks, by simp [importFile, hc]⟩
          | true => exact absurd hc hne
  | null => exact Or.inr ⟨(by rintro ⟨i, h, -⟩; cases h), .invalidFile, rfl⟩
  | bool b => exact Or.inr ⟨(by rintro ⟨i, h, -⟩; cases h), .invalidFile, rfl⟩
  | num q => exact Or.inr ⟨(by rintro ⟨i, h, -⟩; cases h), .invalidFile, rfl⟩
  | inf n => exact Or.inr ⟨(by rintro ⟨i, h, -⟩; cases h), .invalidFile, rfl⟩
  | str x => exact Or.inr ⟨(by rintro ⟨i, h, -⟩; cases h), .invalidFile, rfl⟩
  | obj f => exact Or.inr ⟨(by rintro ⟨i, h, -⟩; cases h), .invalidFile, rfl⟩

/-- C7, amended: the import handler replaces the stored list of the user exactly when the
parsed document is an array whose elements are all plain objects with a string `title` and
a truthy `id`, and it reports success only then; the list it stores is the imported array
as `JSON.stringify` writes it, which is the imported array itself when no number of it is
`Infinity` or `-Infinity`; a document that fails the check, and so every document that is
not an array, is reported as an error and nothing is written.  After the write the handler
reports success exactly when the `render()` that follows returns normally. -/
theorem import_contract (host : Host) (numberText : ℚ → String) (view : Cache)
    (ls : LocalStorage) (email : String) (doc : Parsed) :
    (∀ items, doc = .arr items → (∀ t ∈ items, Accepted t) →
      ∃ list, (importFile host numberText view ls email doc).2 = ls.writeTasks email list ∧
        (importFile host numberText view ls email doc).2.tasks email = list ∧
        list.map Json.obj = Parsed.persistItems items ∧
        (Parsed.finite doc = true → exportFile list = doc) ∧
        ((importFile host numberText view ls email doc).1 = .ok () ↔
          renderStored host numberText view list = true)) ∧
    ((¬ ∃ items, doc = .arr items ∧ ∀ t ∈ items, Accepted t) →
      (∃ e, (importFile host numberText view ls email doc).1 = .error e) ∧
      (importFile host numberText view ls email doc).2 = ls) ∧
    ((importFile host numberText view ls email doc).1 = .ok () →
      ∃ items, doc = .arr items ∧ ∀ t ∈ items, Accepted t) ∧
    ((∀ items, doc ≠ .arr items) →
      (importFile host numberText view ls email doc).1 = .error .invalidFile ∧
      (importFile host numberText view ls email doc).2 = ls) := by
  refine ⟨?_, ?_, ?_, ?_⟩
  · intro items hd hacc
    rcases importFile_cases host numberText view ls email doc with
      ⟨items2, list, hd2, -, -, hm, he⟩ | ⟨hno, -⟩
    · have hi : items2 = items := by rw [hd] at hd2; cases hd2; rfl
      subst hi
      refine ⟨list, by rw [he], by rw [he]; simp [LocalStorage.writeTasks], hm, ?_, ?_⟩
      · intro hfin
        subst hd
        simp only [Parsed.finite] at hfin
        simp only [exportFile, ← reparseItems_map_obj, hm,
          reparseItems_persistItems _ hfin]
      · rw [he]
        by_cases hr : renderStored host numberText view list = true
        · simp [hr]
        · simp [hr]
    · exact absurd ⟨items, hd, hacc⟩ hno
  · intro hno
    rcases importFile_cases host numberText view ls email doc with
      ⟨items, list, hd, hacc, -, -, -⟩ | ⟨-, e, he⟩
    · exact absurd ⟨items, hd, hacc⟩ hno
    · rw [he]; exact ⟨⟨e, rfl⟩, rfl⟩
  · intro hok
    rcases importFile_cases host numberText view ls email doc with
      ⟨items, list, hd, hacc, -, -, -⟩ | ⟨-, e, he⟩
    · exact ⟨items, hd, hacc⟩
    · rw [he] at hok; cases hok
  · intro hna
    cases doc with
    | arr items => exact absurd rfl (hna items)
    | _ => exact ⟨rfl, rfl⟩

theorem importFile_export (host : Host) (numberText : ℚ → String) (view : Cache)
    (ls : LocalStorage) (email : String) (cache : List JObject) :
    ((∀ t ∈ cache, importable t = true) ∧
      importFile host numberText view ls email (exportFile cache) =
        (if renderStored host numberText view cache = true then .ok ()
          else .error .typeError, ls.writeTasks email cache)) ∨
    ((¬ ∀ t ∈ cache, importable t = true) ∧
      ∃ e, importFile host numberText view ls email (exportFile cache) = (.error e, ls)) := by
  have hacc : (∀ t ∈ cache.map (fun t => Parsed.obj (Json.reparseFields t)), Accepted t) ↔
      ∀ t ∈ cache, importable t = true := by
    simp only [List.mem_map, forall_exists_index, and_imp, forall_apply_eq_imp_iff₂,
      ← importCheck_eq_true, importCheck_reparse, Option.some.injEq]
  rcases importFile_cases host numberText view ls email (exportFile cache) with
    ⟨items, list, hd, hall, hp, -, he⟩ | ⟨hno, e, he⟩
  · simp only [exportFile, Parsed.arr.injEq] at hd
    subst hd
    rw [persistTasks_reparse] at hp
    cases hp
    exact Or.inl ⟨hacc.1 hall, he⟩
  · refine Or.inr ⟨fun h => hno ⟨_, rfl, hacc.2 h⟩, e, he⟩

theorem importable_set_updatedAt (o : JObject) (v : Json) :
    importable (o.set "updatedAt" v) = importable o := by
  simp [importable, JObject.get_set]

theorem importable_toggle (old : JObject) (b : Bool) (now : IsoTime)
    (h : importable old = true) :
    importable ((old.spread [("completed", .bool b)]).set "updatedAt" (.str now.text))
      = true := by
  rw [importable_set_updatedAt]
  simpa [importable, JObject.spread, JObject.get_set] using h

theorem importable_edit (old : JObject) (title notes : String) (now : IsoTime)
    (h : importable old = true) :
    importable ((old.spread [("title", .str title), ("notes", .str notes)]).set
      "updatedAt" (.str now.text)) = true := by
  rw [importable_set_updatedAt]
  simp only [importable, Bool.and_eq_true] at h
  simp [importable, JObject.spread, JObject.get_set, isString, h.2]

theorem importable_update (ls : LocalStorage) (email : String) (id : Json)
    (patch : JObject) (now : IsoTime)
    (hpatch : ∀ old, importable old = true →
      importable ((old.spread patch).set "updatedAt" (.str now.text)) = true)
    (h : ∀ t ∈ ls.tasks email, importable t = true) :
    ∀ t ∈ (tasksApi.update ls email id patch now).2.tasks email, importable t = true := by
  rcases update_cases ls email id patch now with ⟨-, he⟩ | ⟨pre, old, post, hl, -, -, he⟩
  · rw [he]; exact h
  · rw [he]
    simp only [LocalStorage.writeTasks, if_true]
    rw [hl] at h
    intro t ht
    rcases List.mem_append.1 ht with hp | hp
    · exact h t (List.mem_append_left _ hp)
    · rcases List.mem_cons.1 hp with rfl | hp
      · exact hpatch old (h old (by simp))
      · exact h t (by simp [hp])

theorem persistTasks_forall (P : JObject → Prop) (items : List Parsed) (list : List JObject)
    (h : persistTasks items = some list) :
    (∀ t ∈ list, P t) ↔ ∀ fields, Parsed.obj fields ∈ items → P (Parsed.persistFields fields) := by
  induction items generalizing list with
  | nil =>
    simp [persistTasks] at h
    subst h
    simp
  | cons t rest ih =>
    cases t with
    | obj fields =>
      cases hr : persistTasks rest with
      | none => simp [persistTasks, hr] at h
      | some l =>
        simp [persistTasks, hr] at h
        subst h
        simp [ih l hr]
    | _ => simp [persistTasks] at h

theorem importable_persistFields (fields : List (String × Parsed))
    (h : Accepted (.obj fields)) :
    importable (Parsed.persistFields fields) = true ↔
      ∀ neg, Parsed.getField fields "id" ≠ some (.inf neg) := by
  obtain ⟨f, hf, ht, hid⟩ := h
  cases hf
  simp only [importable, get_persistFields, isString_persist, ht, Bool.true_and]
  cases hv : Parsed.getField fields "id" with
  | none => simp [hv, Parsed.truthy] at hid
  | some v =>
    rw [hv] at hid
    cases v <;> simp_all [Parsed.truthy, truthy, Parsed.persist]

/-- C8, amended: the import of the export of a cached list passes the import check
exactly when every cached task has a string `title` and a truthy `id`; then the handler
stores a list identical to the exported one, task for task and field for field, and
otherwise it reports an error and writes nothing.  Every list built from the empty one by
`create` (with a non-empty generated id), by the updates of the checkbox and of the inline
edit form, by `remove` and by `clearCompleted` is of that kind; the list stored by an
accepted import is of that kind exactly when no imported `id` is `Infinity` or
`-Infinity`.  After the write the handler reports success exactly when the `render()`
that follows returns normally. -/
theorem export_import_roundtrip (host : Host) (numberText : ℚ → String) (view : Cache)
    (ls : LocalStorage) (email : String) :
    (∀ cache : List JObject,
      ((∀ t ∈ cache, importable t = true) →
        (importFile host numberText view ls email (exportFile cache)).2 =
          ls.writeTasks email cache ∧
        (importFile host numberText view ls email (exportFile cache)).2.tasks email =
          cache ∧
        ((importFile host numberText view ls email (exportFile cache)).1 = .ok () ↔
          renderStored host numberText view cache = true)) ∧
      ((¬ ∀ t ∈ cache, importable t = true) →
        (∃ e, (importFile host numberText view ls email (exportFile cache)).1 = .error e) ∧
        (importFile host numberText view ls email (exportFile cache)).2 = ls)) ∧
    ((∀ t ∈ ls.tasks email, importable t = true) →
      (∀ (payload : Payload) (id : String) (now : IsoTime), id ≠ "" →
        ∀ t ∈ (tasksApi.create ls email payload id now).2.tasks email,
          importable t = true) ∧
      (∀ (id : Json) (b : Bool) (now : IsoTime),
        ∀ t ∈ (tasksApi.update ls email id [("completed", .bool b)] now).2.tasks email,
          importable t = true) ∧
      (∀ (id : Json) (title notes : String) (now : IsoTime),
        ∀ t ∈ (tasksApi.update ls email id
            [("title", .str title), ("notes", .str notes)] now).2.tasks email,
          importable t = true) ∧
      (∀ id : Json, ∀ t ∈ (tasksApi.remove ls email id).tasks email, importable t = true) ∧
      (∀ t ∈ (tasksApi.clearCompleted ls email).tasks email, importable t = true)) ∧
    (∀ items : List Parsed, (∀ t ∈ items, Accepted t) →
      ((∀ t ∈ (importFile host numberText view ls email (.arr items)).2.tasks email,
          importable t = true) ↔
        ∀ fields, Parsed.obj fields ∈ items →
          ∀ neg, Parsed.getField fields "id" ≠ some (.inf neg))) := by
  refine ⟨?_, ?_, ?_⟩
  · intro cache
    rcases importFile_export host numberText view ls email cache with ⟨h, he⟩ | ⟨h, e, he⟩
    · refine ⟨fun _ => ?_, fun x => absurd h x⟩
      rw [he]
      refine ⟨rfl, by simp [LocalStorage.writeTasks], ?_⟩
      by_cases hr : renderStored host numberText view cache = true
      · simp [hr]
      · simp [hr]
    · refine ⟨fun x => absurd x h, fun _ => ?_⟩
      rw [he]
      exact ⟨⟨e, rfl⟩, rfl⟩
  · intro h
    refine ⟨?_, ?_, ?_, ?_, ?_⟩
    · intro payload id now hid t ht
      simp only [tasksApi.create, LocalStorage.writeTasks, if_true, List.mem_append,
        List.mem_singleton] at ht
      rcases ht with ht | rfl
      · exact h t ht
      · simp [importable, JObject.get, isString, truthy, hid]
    · intro id b now
      exact importable_update ls email id _ now (fun old ho => importable_toggle old b now ho) h
    · intro id title notes now
      exact importable_update ls email id _ now
        (fun old ho => importable_edit old title notes now ho) h
    · intro id t ht
      simp only [tasksApi.remove, LocalStorage.writeTasks, if_true] at ht
      exact h t (List.mem_of_mem_filter ht)
    · intro t ht
      simp only [tasksApi.clearCompleted, LocalStorage.writeTasks, if_true] at ht
      exact h t (List.mem_of_mem_filter ht)
  · intro items hall
    rcases importFile_cases host numberText view ls email (.arr items) with
      ⟨items2, list, hd, hacc, hp, -, he⟩ | ⟨hno, -⟩
    · cases hd
      rw [he]
      simp only [LocalStorage.writeTasks, if_true]
      rw [persistTasks_forall (fun t => importable t = true) items list hp]
      constructor
      · intro hall fields hf
        exact (importable_persistFields fields (hacc _ hf)).1 (hall fields hf)
      · intro hall fields hf
        exact (importable_persistFields fields (hacc _ hf)).2 (hall fields hf)
    · exact absurd ⟨items, rfl, hall⟩ hno

/-! ## Stored form of the data model -/

theorem create_stores_task (ls : LocalStorage) (email : String) (payload : Payload)
    (id : String) (now : IsoTime) :
    (tasksApi.create ls email payload id now).1 =
      Task.toObject
        { id := id, title := payload.title, notes := payload.notes.getD "",
          due := payload.due.filter (fun d => d ≠ ""), completed := false,
          createdAt := now.text, updatedAt := now.text } ∧
    (tasksApi.create ls email payload id now).2.tasks email =
      ls.tasks email ++ [(tasksApi.create ls email payload id now).1] := by
  constructor
  · rcases payload with ⟨title, notes, due⟩
    rcases notes with _ | notes <;> rcases due with _ | due
    · simp [tasksApi.create, Task.toObject, notesOrEmpty, dueOrNull]
    · by_cases hd : due = "" <;>
        simp [tasksApi.create, Task.toObject, notesOrEmpty, dueOrNull, Option.filter, hd]
    · by_cases hn : notes = "" <;>
        simp [tasksApi.create, Task.toObject, notesOrEmpty, dueOrNull, hn]
    · by_cases hn : notes = "" <;> by_cases hd : due = "" <;>
        simp [tasksApi.create, Task.toObject, notesOrEmpty, dueOrNull, Option.filter, hn, hd]
  · simp [tasksApi.create, LocalStorage.writeTasks]

theorem toObject_reads (t : Task) :
    isCompleted t.toObject = t.completed ∧
    t.toObject.get "title" = some (.str t.title) ∧
    t.toObject.get "notes" = some (.str t.notes) ∧
    t.toObject.get "createdAt" = some (.str t.createdAt) ∧
    (t.id ≠ "" → importable t.toObject = true) := by
  refine ⟨?_, ?_, ?_, ?_, ?_⟩
  · cases h : t.completed <;> simp [isCompleted, Task.toObject, JObject.get, truthy, h]
  · simp [Task.toObject, JObject.get]
  · simp [Task.toObject, JObject.get]
  · simp [Task.toObject, JObject.get]
  · intro h
    simp [importable, Task.toObject, JObject.get, isString, truthy, h]

/-! ## Uniqueness of task ids -/

theorem distinctIds_of_sublist {l l2 : List JObject} (h : l2.Sublist l)
    (hd : DistinctIds l) : DistinctIds l2 :=
  List.Pairwise.sublist (h.map _) hd

theorem idEq_new_id (t : JObject) (id : String) :
    idEq (t.get "id") (some (.str id)) = idIs (.str id) t := by
  unfold idEq idIs
  cases t.get "id" <;> rfl

theorem idEq_persist (x y : Parsed) (hx : Parsed.truthy (some x) = true)
    (hy : Parsed.truthy (some y) = true) :
    idEq (some x.persist) (some y.persist) = false ↔
      (Parsed.idEq (some x) (some y) = false ∧
        ¬ (Parsed.isInfinite (some x) = true ∧ Parsed.isInfinite (some y) = true)) := by
  cases x <;> cases y <;>
    simp_all [idEq, strictEq, Parsed.idEq, Parsed.strictEq, Parsed.isInfinite,
      Parsed.persist, Parsed.truthy]

theorem distinctIds_persistTasks (items : List Parsed) (list : List JObject)
    (hp : persistTasks items = some list) (hacc : ∀ t ∈ items, Accepted t) :
    DistinctIds list ↔ ImportedIdsDistinct items := by
  induction items generalizing list with
  | nil =>
    simp [persistTasks] at hp
    subst hp
    simp [DistinctIds, ImportedIdsDistinct]
  | cons t rest ih =>
    obtain ⟨fields, rfl, -, hid⟩ := hacc t (List.mem_cons_self _ _)
    have hrest : ∀ t ∈ rest, Accepted t := fun x hx => hacc x (List.mem_cons_of_mem _ hx)
    cases hr : persistTasks rest with
    | none => simp [persistTasks, hr] at hp
    | some l =>
      simp [persistTasks, hr] at hp
      subst hp
      obtain ⟨v, hv⟩ : ∃ v, Parsed.getField fields "id" = some v := by
        cases hg : Parsed.getField fields "id" with
        | none => rw [hg] at hid; simp [Parsed.truthy] at hid
        | some v => exact ⟨v, rfl⟩
      have hvt : Parsed.truthy (some v) = true := by rw [← hv]; exact hid
      have hhead : (∀ s ∈ l, idEq (JObject.get (Parsed.persistFields fields) "id") (s.get "id") = false) ↔
          ∀ t ∈ rest, Parsed.idEq (Parsed.idOf (.obj fields)) (Parsed.idOf t) = false ∧
            ¬ (Parsed.isInfinite (Parsed.idOf (.obj fields)) = true ∧
              Parsed.isInfinite (Parsed.idOf t) = true) := by
        rw [persistTasks_forall
          (fun s => idEq (JObject.get (Parsed.persistFields fields) "id") (s.get "id") = false)
          rest l hr]
        have hone : ∀ f2, Parsed.obj f2 ∈ rest →
            (idEq (JObject.get (Parsed.persistFields fields) "id")
                (JObject.get (Parsed.persistFields f2) "id") = false ↔
              (Parsed.idEq (Parsed.idOf (.obj fields)) (Parsed.idOf (.obj f2)) = false ∧
                ¬ (Parsed.isInfinite (Parsed.idOf (.obj fields)) = true ∧
                  Parsed.isInfinite (Parsed.idOf (.obj f2)) = true))) := by
          intro f2 hf2
          obtain ⟨g, hg, -, hid2⟩ := hrest _ hf2
          cases hg
          obtain ⟨w, hw⟩ : ∃ w, Parsed.getField f2 "id" = some w := by
            cases hg2 : Parsed.getField f2 "id" with
            | none => rw [hg2] at hid2; simp [Parsed.truthy] at hid2
            | some w => exact ⟨w, rfl⟩
          have hwt : Parsed.truthy (some w) = true := by rw [← hw]; exact hid2
          simp only [get_persistFields, Parsed.idOf, hv, hw, Option.map_some']
          exact idEq_persist v w hvt hwt
        constructor
        · intro h t ht
          obtain ⟨f2, rfl, -, -⟩ := hrest t ht
          exact (hone f2 ht).1 (h f2 ht)
        · intro h f2 hf2
          exact (hone f2 hf2).2 (h _ hf2)
      have hih := ih l hr hrest
      unfold DistinctIds ImportedIdsDistinct at hih ⊢
      simp only [List.map_cons, List.pairwise_cons, List.mem_map, forall_exists_index,
        and_imp, forall_apply_eq_imp_iff₂]
      rw [hih]
      constructor
      · rintro ⟨h1, h2⟩
        exact ⟨fun t ht => (hhead.1 h1) t ht, h2⟩
      · rintro ⟨h1, h2⟩
        exact ⟨hhead.2 (fun t ht => h1 t ht), h2⟩

/-- C10, amended: from a stored list with pairwise distinct ids, the list stored by
`create` with an id no stored task has, by `update` with a patch that has no `id` field,
by `remove` and by `clearCompleted` again has pairwise distinct ids; the list stored by
an import that passes the check is the imported one whatever was stored before, so its
ids are pairwise distinct exactly when the imported ids are pairwise distinct and at most
one of them is `Infinity` or `-Infinity`, which are both stored as `null`. -/
theorem distinct_ids_preserved (ls : LocalStorage) (email : String)
    (h : DistinctIds (ls.tasks email)) :
    (∀ (payload : Payload) (id : String) (now : IsoTime),
      (∀ t ∈ ls.tasks email, idIs (.str id) t = false) →
      DistinctIds ((tasksApi.create ls email payload id now).2.tasks email)) ∧
    (∀ (id : Json) (patch : JObject) (now : IsoTime), patch.get "id" = none →
      DistinctIds ((tasksApi.update ls email id patch now).2.tasks email)) ∧
    (∀ id : Json, DistinctIds ((tasksApi.remove ls email id).tasks email)) ∧
    DistinctIds ((tasksApi.clearCompleted ls email).tasks email) ∧
    (∀ (host : Host) (numberText : ℚ → String) (view : Cache) (items : List Parsed),
      (∀ t ∈ items, Accepted t) →
      (DistinctIds ((importFile host numberText view ls email (.arr items)).2.tasks email) ↔
        ImportedIdsDistinct items)) := by
  refine ⟨?_, ?_, ?_, ?_, ?_⟩
  · intro payload id now hnew
    simp only [tasksApi.create, LocalStorage.writeTasks, if_true, DistinctIds,
      List.map_append, List.map_cons, List.map_nil]
    rw [List.pairwise_append]
    refine ⟨h, List.pairwise_singleton _ _, ?_⟩
    intro x hx y hy
    simp only [List.mem_singleton] at hy
    obtain ⟨t, ht, rfl⟩ := List.mem_map.1 hx
    subst hy
    have : JObject.get [("id", Json.str id), ("title", Json.str payload.title),
        ("notes", notesOrEmpty payload.notes), ("due", dueOrNull payload.due),
        ("completed", Json.bool false), ("createdAt", Json.str now.text),
        ("updatedAt", Json.str now.text)] "id" = some (.str id) := by
      simp [JObject.get]
    rw [this, idEq_new_id]
    exact hnew t ht
  · intro id patch now hp
    rcases update_cases ls email id patch now with ⟨-, he⟩ | ⟨pre, old, post, hl, -, -, he⟩
    · rw [he]; exact h
    · rw [he]
      simp only [LocalStorage.writeTasks, if_true]
      have hid : ((old.spread patch).set "updatedAt" (.str now.text)).get "id"
          = old.get "id" := by
        rw [JObject.get_set, if_neg (by decide), JObject.get_spread_of_absent _ _ _ hp]
      unfold DistinctIds at h ⊢
      rw [hl] at h
      simpa [hid] using h
  · intro id
    simp only [tasksApi.remove, LocalStorage.writeTasks, if_true]
    exact distinctIds_of_sublist (List.filter_sublist _) h
  · simp only [tasksApi.clearCompleted, LocalStorage.writeTasks, if_true]
    exact distinctIds_of_sublist (List.filter_sublist _) h
  · intro host numberText view items hacc
    rcases importFile_cases host numberText view ls email (.arr items) with
      ⟨items2, list, hd, -, hp, -, he⟩ | ⟨hno, -⟩
    · cases hd
      rw [he]
      simp only [LocalStorage.writeTasks, if_true]
      exact distinctIds_persistTasks items list hp hacc
    · exact absurd ⟨items, rfl, hacc⟩ hno

/-- C7, as stated, fails.  The document `[{"title":"x","id":1e400}]` is accepted and the
list stored for the user, read back, is not the imported array: the `id` that was
`Infinity` is `null`.  The document `[{"title":"x","id":0}]` is an array whose element
has a string title and an id, and it is rejected.  The document
`[{"title":"x","id":"k","notes":{"toString":1}}]` passes the check and replaces the two
stored tasks, and the handler then reports a failure, because `render()` throws. -/
theorem import_contract_fails :
    ((importFile sampleHost integerText initialCache emptyStorage "a@b.c" overflowDoc).1
        = .ok () ∧
      exportFile ((importFile sampleHost integerText initialCache emptyStorage "a@b.c"
        overflowDoc).2.tasks "a@b.c") ≠ overflowDoc ∧
      (importFile sampleHost integerText initialCache emptyStorage "a@b.c"
        overflowDoc).2.tasks "a@b.c" = [[("title", .str "x"), ("id", .null)]]) ∧
    (Parsed.isString (Parsed.getField [("title", .str "x"), ("id", .num 0)] "title") = true ∧
      Parsed.getField [("title", .str "x"), ("id", .num 0)] "id" = some (.num 0) ∧
      (importFile sampleHost integerText initialCache emptyStorage "a@b.c" zeroIdDoc).1
        = .error .invalidTasks) ∧
    ((importFile sampleHost integerText initialCache twoTaskStorage "a@b.c"
        unprintableDoc).1 = .error .typeError ∧
      twoTaskStorage.tasks "a@b.c" = twoTasks ∧
      (importFile sampleHost integerText initialCache twoTaskStorage "a@b.c"
        unprintableDoc).2.tasks "a@b.c" =
        [[("title", .str "x"), ("id", .str "k"), ("notes", .obj [("toString", .num 1)])]]) := by
  refine ⟨⟨rfl, ?_, rfl⟩, ⟨rfl, rfl, rfl⟩, ⟨rfl, rfl, rfl⟩⟩
  intro h
  have h2 : exportFile ((importFile sampleHost integerText initialCache emptyStorage "a@b.c"
      overflowDoc).2.tasks "a@b.c") = .arr [.obj [("title", .str "x"), ("id", .null)]] := rfl
  rw [h2] at h
  simp [overflowDoc] at h

/-- C8, as stated, fails.  After the accepted import of `[{"title":"x","id":1e400}]` the
cache holds `[{"title":"x","id":null}]`, and importing the export of that cache is
rejected with `Invalid tasks`.  After the import of
`[{"title":"x","id":"k","notes":{"toString":1}}]` the cache holds that list, and importing
its export stores the same list again while the handler reports a failure. -/
theorem export_import_roundtrip_fails :
    ((importFile sampleHost integerText initialCache emptyStorage "a@b.c" overflowDoc).1
        = .ok () ∧
      tasksApi.list (importFile sampleHost integerText initialCache emptyStorage "a@b.c"
        overflowDoc).2 "a@b.c" = [[("title", .str "x"), ("id", .null)]] ∧
      (importFile sampleHost integerText initialCache
        (importFile sampleHost integerText initialCache emptyStorage "a@b.c" overflowDoc).2
        "a@b.c"
        (exportFile (tasksApi.list (importFile sampleHost integerText initialCache
          emptyStorage "a@b.c" overflowDoc).2 "a@b.c"))).1
        = .error .invalidTasks) ∧
    (tasksApi.list (importFile sampleHost integerText initialCache emptyStorage "a@b.c"
        unprintableDoc).2 "a@b.c" =
        [[("title", .str "x"), ("id", .str "k"), ("notes", .obj [("toString", .num 1)])]] ∧
      (importFile sampleHost integerText initialCache
        (importFile sampleHost integerText initialCache emptyStorage "a@b.c"
          unprintableDoc).2
        "a@b.c"
        (exportFile (tasksApi.list (importFile sampleHost integerText initialCache
          emptyStorage "a@b.c" unprintableDoc).2 "a@b.c"))).1
        = .error .typeError) := by
  refine ⟨⟨rfl, rfl, rfl⟩, ⟨rfl, rfl⟩⟩

/-- C10, as stated, fails: importing `[{"id":"a","title":"x"},{"id":"a","title":"y"}]`
over an empty list succeeds and stores two tasks with the same id; and updating the task
`"2"` of a list with the ids `"1"` and `"2"` with the patch `{id: "1"}` stores two tasks
with the id `"1"`. -/
theorem distinct_ids_broken_by_import_and_patch :
    (DistinctIds (emptyStorage.tasks "a@b.c") ∧
      (importFile sampleHost integerText initialCache emptyStorage "a@b.c"
        duplicateDoc).1 = .ok () ∧
      ¬ DistinctIds ((importFile sampleHost integerText initialCache emptyStorage "a@b.c"
        duplicateDoc).2.tasks "a@b.c")) ∧
    (DistinctIds (twoTaskStorage.tasks "a@b.c") ∧
      (tasksApi.update twoTaskStorage "a@b.c" (.str "2") [("id", .str "1")] newYear).1
        = .ok [("id", .str "1"), ("title", .str "y"),
               ("updatedAt", .str "2024-01-01T00:00:00.000Z")] ∧
      ¬ DistinctIds
        ((tasksApi.update twoTaskStorage "a@b.c" (.str "2") [("id", .str "1")]
          newYear).2.tasks "a@b.c")) := by
  refine ⟨⟨?_, rfl, ?_⟩, ⟨?_, rfl, ?_⟩⟩
  · simp [DistinctIds, emptyStorage]
  · have h : (importFile sampleHost integerText initialCache emptyStorage "a@b.c"
        duplicateDoc).2.tasks "a@b.c"
        = [[("id", .str "a"), ("title", .str "x")], [("id", .str "a"), ("title", .str "y")]] :=
      rfl
    rw [h]
    simp [DistinctIds, JObject.get, idEq, strictEq]
  · have h : twoTaskStorage.tasks "a@b.c" = twoTasks := rfl
    rw [h]
    simp [DistinctIds, twoTasks, JObject.get, idEq, strictEq]
  · have h : (tasksApi.update twoTaskStorage "a@b.c" (.str "2") [("id", .str "1")]
        newYear).2.tasks "a@b.c"
        = [[("id", .str "1"), ("title", .str "x")],
           [("id", .str "1"), ("title", .str "y"),
            ("updatedAt", .str "2024-01-01T00:00:00.000Z")]] := rfl
    rw [h]
    simp [DistinctIds, JObject.get, idEq, strictEq]

/-! ## Rendering -/

theorem keepRow_iff (host : Host) (cache : Cache) (t : Task)
    (hf : cache.filter = "all" ∨ cache.filter = "completed" ∨ cache.filter = "pending") :
    keepRow host cache t = true ↔ specKeep host cache t := by
  unfold keepRow specKeep
  rcases hf with hf | hf | hf <;> cases hc : t.completed <;>
    by_cases hs : cache.search = "" <;>
    by_cases hi : includes (host.toLowerCase (t.title ++ " " ++ t.notes)) cache.search = true <;>
    simp [hf, hc, hs, hi]

/-- C4: for a filter among `all`, `completed` and `pending` and any search text, a task is
kept by the filter step of `render` exactly when it meets the filter criterion and the
search is empty or occurs in the lower-cased `title + " " + notes`; the rows of `render`
are a permutation of the cached tasks that do; with the filter `pending` and an empty
search they are a permutation of the tasks that are not completed. -/
theorem render_rows_are_filtered (host : Host) (cache : Cache)
    (hf : cache.filter = "all" ∨ cache.filter = "completed" ∨ cache.filter = "pending") :
    (∀ t, keepRow host cache t = true ↔ specKeep host cache t) ∧
    (render host cache).Perm (cache.tasks.filter (fun t => decide (specKeep host cache t))) ∧
    (cache.filter = "pending" → cache.search = "" →
      (render host cache).Perm (cache.tasks.filter (fun t => !t.completed))) := by
  have hk := fun t => keepRow_iff host cache t hf
  have hperm : (render host cache).Perm (cache.tasks.filter (keepRow host cache)) :=
    List.perm_insertionSort _ _
  refine ⟨hk, ?_, ?_⟩
  · have : cache.tasks.filter (keepRow host cache)
        = cache.tasks.filter (fun t => decide (specKeep host cache t)) := by
      apply List.filter_congr
      intro t _
      by_cases h : specKeep host cache t
      · simp [h, (hk t).2 h]
      · have : keepRow host cache t = false := by
          cases hkr : keepRow host cache t
          · rfl
          · exact absurd ((hk t).1 hkr) h
        simp [h, this]
    rw [← this]; exact hperm
  · intro hp hs
    have : cache.tasks.filter (keepRow host cache)
        = cache.tasks.filter (fun t => !t.completed) := by
      apply List.filter_congr
      intro t _
      cases hc : t.completed <;> simp [keepRow, hp, hs, hc]
    rw [← this]; exact hperm

theorem pairwise_orderedInsert_of {α : Type} (r : α → α → Prop) [DecidableRel r] (a : α)
    (l : List α) (hl : l.Pairwise r) (htot : ∀ x ∈ l, ¬ r a x → r x a)
    (htr : ∀ x ∈ l, ∀ y ∈ l, r a x → r x y → r a y) :
    (l.orderedInsert r a).Pairwise r := by
  induction l with
  | nil => simp
  | cons b l ih =>
    rw [List.pairwise_cons] at hl
    by_cases hab : r a b
    · rw [List.orderedInsert, if_pos hab]
      refine List.pairwise_cons.2 ⟨?_, List.pairwise_cons.2 hl⟩
      intro x hx
      rcases List.mem_cons.1 hx with rfl | hx
      · exact hab
      · exact htr b (List.mem_cons_self _ _) x (List.mem_cons_of_mem _ hx) hab (hl.1 x hx)
    · rw [List.orderedInsert, if_neg hab]
      refine List.pairwise_cons.2 ⟨?_, ?_⟩
      · intro x hx
        rcases (List.mem_orderedInsert r).1 hx with rfl | hx
        · exact htot b (List.mem_cons_self _ _) hab
        · exact hl.1 x hx
      · exact ih hl.2 (fun x hx => htot x (List.mem_cons_of_mem _ hx))
          (fun x hx y hy => htr x (List.mem_cons_of_mem _ hx) y (List.mem_cons_of_mem _ hy))

theorem pairwise_insertionSort_of {α : Type} (r : α → α → Prop) [DecidableRel r]
    (l : List α) (htot : ∀ x ∈ l, ∀ y ∈ l, ¬ r x y → r y x)
    (htr : ∀ x ∈ l, ∀ y ∈ l, ∀ z ∈ l, r x y → r y z → r x z) :
    (l.insertionSort r).Pairwise r := by
  induction l with
  | nil => simp
  | cons a l ih =>
    rw [List.insertionSort]
    apply pairwise_orderedInsert_of
    · exact ih (fun x hx y hy => htot x (List.mem_cons_of_mem _ hx) y (List.mem_cons_of_mem _ hy))
        (fun x hx y hy z hz => htr x (List.mem_cons_of_mem _ hx) y (List.mem_cons_of_mem _ hy)
          z (List.mem_cons_of_mem _ hz))
    · intro x hx
      exact htot a (List.mem_cons_self _ _) x
        (List.mem_cons_of_mem _ ((List.mem_insertionSort r).1 hx))
    · intro x hx y hy
      exact htr a (List.mem_cons_self _ _) x
        (List.mem_cons_of_mem _ ((List.mem_insertionSort r).1 hx)) y
        (List.mem_cons_of_mem _ ((List.mem_insertionSort r).1 hy))

theorem compareRows_le_iff (host : Host) (sort : String) (a b : Task) :
    compareRows host sort a b ≤ 0 ↔
      (a.completed = false ∧ b.completed = true) ∨
      (a.completed = b.completed ∧ secondKey host sort a b ≤ 0) := by
  unfold compareRows secondKey
  cases ha : a.completed <;> cases hb : b.completed <;> simp

theorem render_pairwise (host : Host) (cache : Cache)
    (htot : ∀ x ∈ cache.tasks.filter (keepRow host cache),
      ∀ y ∈ cache.tasks.filter (keepRow host cache),
      ¬ secondKey host cache.sort x y ≤ 0 → secondKey host cache.sort y x ≤ 0)
    (htr : ∀ x ∈ cache.tasks.filter (keepRow host cache),
      ∀ y ∈ cache.tasks.filter (keepRow host cache),
      ∀ z ∈ cache.tasks.filter (keepRow host cache),
      secondKey host cache.sort x y ≤ 0 → secondKey host cache.sort y z ≤ 0 →
      secondKey host cache.sort x z ≤ 0) :
    (render host cache).Pairwise (fun a b =>
      a.completed = b.completed → secondKey host cache.sort a b ≤ 0) := by
  have hsorted : (render host cache).Pairwise
      (fun a b => compareRows host cache.sort a b ≤ 0) := by
    apply pairwise_insertionSort_of
    · intro x hx y hy hxy
      rw [compareRows_le_iff] at hxy ⊢
      have h2 := htot x hx y hy
      clear hx hy htot htr
      cases hcx : x.completed <;> cases hcy : y.completed <;> simp_all
    · intro x hx y hy z hz hxy hyz
      rw [compareRows_le_iff] at hxy hyz ⊢
      have h2 := htr x hx y hy z hz
      clear hx hy hz htot htr
      cases hcx : x.completed <;> cases hcy : y.completed <;> cases hcz : z.completed <;>
        simp_all
  refine hsorted.imp ?_
  intro a b hab
  rw [compareRows_le_iff] at hab
  cases hca : a.completed <;> cases hcb : b.completed <;> simp_all

theorem orderedInsert_completed_last (host : Host) (sort : String) (a : Task)
    (l : List Task)
    (hl : l.Pairwise (fun x y => ¬ (x.completed = true ∧ y.completed = false))) :
    (l.orderedInsert (fun x y => compareRows host sort x y ≤ 0) a).Pairwise
      (fun x y => ¬ (x.completed = true ∧ y.completed = false)) := by
  induction l with
  | nil => simp
  | cons b l ih =>
    rw [List.pairwise_cons] at hl
    by_cases hab : compareRows host sort a b ≤ 0
    · rw [List.orderedInsert, if_pos hab]
      refine List.pairwise_cons.2 ⟨?_, List.pairwise_cons.2 hl⟩
      intro x hx
      rw [compareRows_le_iff] at hab
      rcases List.mem_cons.1 hx with rfl | hx
      · rintro ⟨h1, h2⟩
        rcases hab with ⟨h3, -⟩ | ⟨h3, -⟩
        · rw [h1] at h3; cases h3
        · rw [h1, h2] at h3; cases h3
      · rintro ⟨h1, h2⟩
        have hb : b.completed = true := by
          rcases hab with ⟨h3, -⟩ | ⟨h3, -⟩
          · rw [h1] at h3; cases h3
          · rw [← h3]; exact h1
        exact hl.1 x hx ⟨hb, h2⟩
    · rw [List.orderedInsert, if_neg hab]
      refine List.pairwise_cons.2 ⟨?_, ih hl.2⟩
      intro x hx
      rcases (List.mem_orderedInsert _).1 hx with rfl | hx
      · rintro ⟨h1, h2⟩
        exact hab ((compareRows_le_iff host sort x b).2 (Or.inl ⟨h2, h1⟩))
      · exact hl.1 x hx

theorem render_completed_last (host : Host) (cache : Cache) :
    (render host cache).Pairwise
      (fun a b => ¬ (a.completed = true ∧ b.completed = false)) := by
  unfold render arraySort
  induction cache.tasks.filter (keepRow host cache) with
  | nil => simp
  | cons a l ih =>
    rw [List.insertionSort]
    exact orderedInsert_completed_last host cache.sort a _ ih

/-- C5, amended: in the rows of `render` no completed task precedes a task that is not
completed, whatever the filter, the search and the sort; with the sort `alpha`, for a host
whose `localeCompare` is a consistent comparator, the rows of each completion group are in
the order of `localeCompare` on the titles; with any other sort (`created`), when the
`createdAt` of every task the filter keeps is a valid date, the rows of each completion
group are in descending order of `createdAt`. -/
theorem render_order (host : Host) (cache : Cache) :
    (render host cache).Pairwise
      (fun a b => ¬ (a.completed = true ∧ b.completed = false)) ∧
    (cache.sort = "alpha" → ConsistentComparator host.localeCompare →
      (render host cache).Pairwise
        (fun a b => a.completed = b.completed →
          host.localeCompare a.title b.title ≤ 0)) ∧
    (cache.sort ≠ "alpha" →
      (∀ t ∈ cache.tasks, keepRow host cache t = true →
        (host.dateValue t.createdAt).isSome = true) →
      (render host cache).Pairwise
        (fun a b => a.completed = b.completed →
          ∃ ta tb, host.dateValue a.createdAt = some ta ∧
            host.dateValue b.createdAt = some tb ∧ tb ≤ ta)) := by
  refine ⟨render_completed_last host cache, ?_, ?_⟩
  · intro hs hc
    have hkey : ∀ a b, secondKey host cache.sort a b = host.localeCompare a.title b.title := by
      intro a b; simp [secondKey, hs]
    have hp := render_pairwise host cache
      (fun x _ y _ h => by
        rw [hkey] at h ⊢
        exact (hc.1 x.title y.title).resolve_left h)
      (fun x _ y _ z _ h1 h2 => by
        rw [hkey] at h1 h2 ⊢
        exact hc.2 _ _ _ h1 h2)
    exact hp.imp (fun h e => by rw [← hkey]; exact h e)
  · intro hs hd
    have hvalid : ∀ a ∈ cache.tasks.filter (keepRow host cache),
        (host.dateValue a.createdAt).isSome = true := by
      intro a ha
      rw [List.mem_filter] at ha
      exact hd a ha.1 ha.2
    have hkey : ∀ a ∈ cache.tasks.filter (keepRow host cache),
        ∀ b ∈ cache.tasks.filter (keepRow host cache), ∃ ta tb,
        host.dateValue a.createdAt = some ta ∧ host.dateValue b.createdAt = some tb ∧
        secondKey host cache.sort a b = tb - ta := by
      intro a ha b hb
      obtain ⟨ta, hta⟩ := Option.isSome_iff_exists.1 (hvalid a ha)
      obtain ⟨tb, htb⟩ := Option.isSome_iff_exists.1 (hvalid b hb)
      exact ⟨ta, tb, hta, htb, by simp [secondKey, hs, hta, htb]⟩
    have hp := render_pairwise host cache
      (fun x hx y hy h => by
        obtain ⟨ta, tb, hta, htb, hk⟩ := hkey x hx y hy
        obtain ⟨ta2, tb2, hta2, htb2, hk2⟩ := hkey y hy x hx
        rw [hk] at h
        rw [hk2]
        rw [hta] at htb2
        rw [htb] at hta2
        cases htb2
        cases hta2
        omega)
      (fun x hx y hy z hz h1 h2 => by
        obtain ⟨ta, tb, hta, htb, hk⟩ := hkey x hx y hy
        obtain ⟨tb2, tc, htb2, htc, hk2⟩ := hkey y hy z hz
        obtain ⟨ta3, tc3, hta3, htc3, hk3⟩ := hkey x hx z hz
        rw [hk] at h1
        rw [hk2] at h2
        rw [hk3]
        rw [htb] at htb2
        rw [hta] at hta3
        rw [htc] at htc3
        cases htb2
        cases hta3
        cases htc3
        omega)
    have hmem : ∀ x ∈ render host cache, x ∈ cache.tasks.filter (keepRow host cache) :=
      fun x hx => (List.mem_insertionSort _).1 hx
    have hp2 := List.Pairwise.and_mem.1 hp
    refine hp2.imp ?_
    rintro a b ⟨ha, hb, h⟩ e
    obtain ⟨ta, tb, hta, htb, hk⟩ := hkey a (hmem a ha) b (hmem b hb)
    have := h e
    rw [hk] at this
    exact ⟨ta, tb, hta, htb, by omega⟩

/-- C5, as stated, fails.  With the root collation `_` sorts before `1`, so the two
pending tasks of `symbolCache` are shown in the order `_`, `1`, which is not the
case-insensitive lexicographic order of their titles.  In `gapCache` the second task has a
`createdAt` that is not a date; the comparator returns `NaN` against it, the rows stay in
the order of the cache, and the task of 1 January is shown before that of 3 January. -/
theorem render_order_fails :
    ((render rootHost symbolCache).map (fun t => (t.title, t.completed))
        = [("_", false), ("1", false)] ∧
      rootHost.localeCompare "_" "1" = -1 ∧
      ¬ caseInsensitiveLe rootHost "_" "1" ∧
      ¬ (render rootHost symbolCache).Pairwise
        (fun a b => a.completed = b.completed →
          caseInsensitiveLe rootHost a.title b.title)) ∧
    ((render rootHost gapCache).map (fun t => (t.id, t.completed, t.createdAt))
        = [("1", false, "2024-01-01T08:00:00.000Z"), ("2", false, "soon"),
           ("3", false, "2024-01-03T08:00:00.000Z")] ∧
      rootHost.dateValue "2024-01-01T08:00:00.000Z" = some 1704096000000 ∧
      rootHost.dateValue "soon" = none ∧
      rootHost.dateValue "2024-01-03T08:00:00.000Z" = some 1704268800000 ∧
      ¬ (render rootHost gapCache).Pairwise
        (fun a b => a.completed = b.completed →
          ∃ ta tb, rootHost.dateValue a.createdAt = some ta ∧
            rootHost.dateValue b.createdAt = some tb ∧ tb ≤ ta)) := by
  have hnle : ¬ caseInsensitiveLe rootHost "_" "1" := by
    have h1 : rootHost.toLowerCase "_" = "_" := rfl
    have h2 : rootHost.toLowerCase "1" = "1" := rfl
    unfold caseInsensitiveLe
    rw [h1, h2, not_le, String.lt_iff_toList_lt]
    decide
  refine ⟨⟨rfl, rfl, hnle, ?_⟩, ⟨rfl, rfl, rfl, rfl, ?_⟩⟩
  · have hr : render rootHost symbolCache =
        [sampleTask "2" "_" false "2024-01-02T08:00:00.000Z",
         sampleTask "1" "1" false "2024-01-01T08:00:00.000Z"] := rfl
    rw [hr]
    intro hp
    rw [List.pairwise_cons] at hp
    exact hnle (hp.1 _ (List.mem_singleton_self _) rfl)
  · have hr : render rootHost gapCache =
        [sampleTask "1" "first" false "2024-01-01T08:00:00.000Z",
         sampleTask "2" "second" false "soon",
         sampleTask "3" "third" false "2024-01-03T08:00:00.000Z"] := rfl
    rw [hr]
    intro hp
    rw [List.pairwise_cons] at hp
    obtain ⟨ta, tb, hta, htb, hle⟩ :=
      hp.1 (sampleTask "3" "third" false "2024-01-03T08:00:00.000Z") (by simp) rfl
    have h1 : rootHost.dateValue
        (sampleTask "1" "first" false "2024-01-01T08:00:00.000Z").createdAt
        = some 1704096000000 := rfl
    have h3 : rootHost.dateValue
        (sampleTask "3" "third" false "2024-01-03T08:00:00.000Z").createdAt
        = some 1704268800000 := rfl
    rw [h1] at hta
    rw [h3] at htb
    cases hta
    cases htb
    omega

/-! ## Statistics -/

theorem roundHalfEven_of_lt_half (x : ℚ) (f : ℤ) (h1 : (f : ℚ) ≤ x) (h2 : x - f < 1 / 2) :
    roundHalfEven x = f := by
  have hf : ⌊x⌋ = f := by
    rw [Int.floor_eq_iff]
    constructor
    · exact h1
    · linarith
  simp only [roundHalfEven, hf, if_pos h2]

theorem roundHalfEven_nonneg (x : ℚ) (h : 0 ≤ x) : 0 ≤ roundHalfEven x := by
  have hf : 0 ≤ ⌊x⌋ := Int.floor_nonneg.2 h
  unfold roundHalfEven
  simp only
  split_ifs <;> omega

theorem roundHalfEven_le (x : ℚ) (n : ℤ) (h : x ≤ n) : roundHalfEven x ≤ n := by
  have hf : ⌊x⌋ ≤ n := Int.floor_le_iff.2 (by linarith)
  have hfl : (⌊x⌋ : ℚ) ≤ x := Int.floor_le x
  have hup : ∀ {P : Prop}, ¬ x - ⌊x⌋ < 1 / 2 → ⌊x⌋ + 1 ≤ n := by
    intro _ hfrac
    have : (⌊x⌋ : ℚ) < n := by linarith
    have : ⌊x⌋ < n := by exact_mod_cast this
    omega
  unfold roundHalfEven
  simp only
  split_ifs with h1 h2 h3
  · exact hf
  · exact hup (P := True) h1
  · exact hf
  · exact hup (P := True) h1

theorem log_two_eq (q : ℚ) (e : ℤ) (hlo : (2 : ℚ) ^ e ≤ q) (hhi : q < (2 : ℚ) ^ (e + 1)) :
    Int.log 2 q = e := by
  have h0 : 0 < q := lt_of_lt_of_le (by positivity) hlo
  apply le_antisymm
  · have := (Int.lt_zpow_iff_log_lt (b := 2) (x := e + 1) (r := q) (by norm_num) h0).1
      (by simpa using hhi)
    omega
  · exact (Int.zpow_le_iff_le_log (b := 2) (by norm_num) h0).1 (by simpa using hlo)

theorem toDouble_of_bounds (q : ℚ) (e m : ℤ) (hlo : (2 : ℚ) ^ e ≤ q)
    (hhi : q < (2 : ℚ) ^ (e + 1)) (hm : roundHalfEven (q / 2 ^ (e - 52)) = m) :
    toDouble q = m * 2 ^ (e - 52) := by
  have h0 : 0 < q := lt_of_lt_of_le (by positivity) hlo
  simp only [toDouble, if_neg (ne_of_gt h0), abs_of_pos h0, log_two_eq q e hlo hhi, hm]

theorem toDouble_nonneg (q : ℚ) (h : 0 ≤ q) : 0 ≤ toDouble q := by
  unfold toDouble
  split_ifs with h0
  · exact le_refl _
  · simp only
    have hr := roundHalfEven_nonneg (q / 2 ^ (Int.log 2 |q| - 52))
      (div_nonneg h (by positivity))
    have hr2 : (0 : ℚ) ≤ (roundHalfEven (q / 2 ^ (Int.log 2 |q| - 52)) : ℚ) := by
      exact_mod_cast hr
    exact mul_nonneg hr2 (by positivity)

theorem toDouble_le_nat (q : ℚ) (B : ℕ) (h0 : 0 ≤ q) (hq : q ≤ B)
    (hB : (B : ℚ) < 2 ^ (53 : ℤ)) : toDouble q ≤ B := by
  unfold toDouble
  split_ifs with hz
  · exact Nat.cast_nonneg B
  · simp only
    have hpos : 0 < q := lt_of_le_of_ne h0 (Ne.symm hz)
    rw [abs_of_pos hpos]
    have he : Int.log 2 q < 53 :=
      (Int.lt_zpow_iff_log_lt (b := 2) (x := 53) (r := q) (by norm_num) hpos).1
        (by simpa using lt_of_le_of_lt hq hB)
    obtain ⟨k, hk⟩ : ∃ k : ℕ, (k : ℤ) = 52 - Int.log 2 q := ⟨(52 - Int.log 2 q).toNat, by omega⟩
    have hulp : (2 : ℚ) ^ (Int.log 2 q - 52) = ((2 : ℚ) ^ k)⁻¹ := by
      have : Int.log 2 q - 52 = -(k : ℤ) := by omega
      rw [this, zpow_neg, zpow_natCast]
    rw [hulp]
    have hk0 : (0 : ℚ) < 2 ^ k := by positivity
    have hle : q / ((2 : ℚ) ^ k)⁻¹ ≤ ((B * 2 ^ k : ℤ) : ℚ) := by
      rw [div_inv_eq_mul]
      push_cast
      exact mul_le_mul_of_nonneg_right hq hk0.le
    have hr := roundHalfEven_le _ _ hle
    have hr2 : (roundHalfEven (q / ((2 : ℚ) ^ k)⁻¹) : ℚ) ≤ (B : ℚ) * 2 ^ k := by
      exact_mod_cast hr
    calc (roundHalfEven (q / ((2 : ℚ) ^ k)⁻¹) : ℚ) * ((2 : ℚ) ^ k)⁻¹
        ≤ ((B : ℚ) * 2 ^ k) * ((2 : ℚ) ^ k)⁻¹ :=
          mul_le_mul_of_nonneg_right hr2 (inv_nonneg.2 hk0.le)
      _ = B := by field_simp

theorem percentOf_bounds (completed total : Nat) (h : completed ≤ total) :
    0 ≤ percentOf completed total ∧ percentOf completed total ≤ 100 := by
  unfold percentOf
  split_ifs with ht
  · exact ⟨le_refl _, by norm_num⟩
  · have htpos : (0 : ℚ) < total := by exact_mod_cast Nat.pos_of_ne_zero ht
    have hq0 : (0 : ℚ) ≤ (completed : ℚ) / total := div_nonneg (Nat.cast_nonneg _) htpos.le
    have hq1 : (completed : ℚ) / total ≤ ((1 : ℕ) : ℚ) := by
      rw [div_le_iff₀ htpos]
      simpa using (show (completed : ℚ) ≤ total by exact_mod_cast h)
    have hd0 := toDouble_nonneg _ hq0
    have hd1 := toDouble_le_nat _ 1 hq0 hq1 (by norm_num)
    have hy0 : (0 : ℚ) ≤ toDouble ((completed : ℚ) / total) * 100 := by positivity
    have hy1 : toDouble ((completed : ℚ) / total) * 100 ≤ ((100 : ℕ) : ℚ) := by
      have : toDouble ((completed : ℚ) / total) ≤ 1 := by simpa using hd1
      push_cast
      linarith
    have hz0 := toDouble_nonneg _ hy0
    have hz1 := toDouble_le_nat _ 100 hy0 hy1 (by norm_num)
    have hz1b : toDouble (toDouble ((completed : ℚ) / total) * 100) ≤ 100 := by
      simpa using hz1
    unfold mathRound
    constructor
    · exact Int.floor_nonneg.2 (by linarith)
    · have : ⌊toDouble (toDouble ((completed : ℚ) / total) * 100) + 1 / 2⌋ < 101 := by
        rw [Int.floor_lt]
        push_cast
        linarith
      omega

theorem percentOf_one_of_three : percentOf 1 3 = 33 := by
  have h1 : toDouble ((1 : ℚ) / 3) = 6004799503160661 / 18014398509481984 := by
    rw [toDouble_of_bounds _ (-2) 6004799503160661 (by norm_num) (by norm_num)
      (roundHalfEven_of_lt_half _ _ (by norm_num) (by norm_num))]
    norm_num
  have h2 : toDouble ((6004799503160661 : ℚ) / 18014398509481984 * 100)
      = 4691249611844266 / 140737488355328 := by
    rw [toDouble_of_bounds _ 5 4691249611844266 (by norm_num) (by norm_num)
      (roundHalfEven_of_lt_half _ _ (by norm_num) (by norm_num))]
    norm_num
  simp only [percentOf, mathRound]
  rw [if_neg (by norm_num)]
  simp only [Nat.cast_ofNat, Nat.cast_one]
  rw [h1, h2]
  norm_num

theorem percentOf_23_of_40 : percentOf 23 40 = 57 := by
  have h1 : toDouble ((23 : ℚ) / 40) = 2589569785738035 / 4503599627370496 := by
    rw [toDouble_of_bounds _ (-1) 5179139571476070 (by norm_num) (by norm_num)
      (roundHalfEven_of_lt_half _ _ (by norm_num) (by norm_num))]
    norm_num
  have h2 : toDouble ((2589569785738035 : ℚ) / 4503599627370496 * 100)
      = 8092405580431359 / 140737488355328 := by
    rw [toDouble_of_bounds _ 5 8092405580431359 (by norm_num) (by norm_num)
      (roundHalfEven_of_lt_half _ _ (by norm_num) (by norm_num))]
    norm_num
  simp only [percentOf, mathRound]
  rw [if_neg (by norm_num)]
  simp only [Nat.cast_ofNat]
  rw [h1, h2]
  norm_num

/-- C6: `stats` counts the cached tasks, the completed ones and their difference; its
percentage is `0` for an empty cache, always lies between `0` and `100`, and is `33` for
one completed task of three; but for twenty-three completed tasks of forty it is `57`,
whereas `round(100*23/40)`, the rounding of `57.5` with the tie going up, is `58`: the
binary64 product `(23/40)*100` is `57.49999999999999`. -/
theorem stats_percent_rounding :
    (∀ cache : Cache,
      (stats cache).total = cache.tasks.length ∧
      (stats cache).completed = (cache.tasks.filter (fun t => t.completed)).length ∧
      (stats cache).pending = (stats cache).total - (stats cache).completed ∧
      (cache.tasks = [] → (stats cache).percent = 0) ∧
      0 ≤ (stats cache).percent ∧ (stats cache).percent ≤ 100) ∧
    (percentOf 1 3 = 33 ∧ specPercent 1 3 = 33) ∧
    ((stats fortyCache).total = 40 ∧ (stats fortyCache).completed = 23 ∧
      (stats fortyCache).percent = 57 ∧ specPercent 23 40 = 58) := by
  refine ⟨?_, ⟨percentOf_one_of_three, ?_⟩, ⟨rfl, rfl, ?_, ?_⟩⟩
  · intro cache
    refine ⟨rfl, rfl, rfl, ?_, ?_⟩
    · intro h
      simp [stats, h, percentOf]
    · exact percentOf_bounds _ _ (List.length_filter_le _ _)
  · simp only [specPercent]
    norm_num
  · have h1 : (stats fortyCache).percent = percentOf 23 40 := rfl
    rw [h1]
    exact percentOf_23_of_40
  · simp only [specPercent]
    norm_num

/-! ## Examples -/

theorem sampleHost_compare_le (a b : String) :
    sampleHost.localeCompare a b ≤ 0 ↔ a.map Char.toLower ≤ b.map Char.toLower := by
  show (if a.map Char.toLower < b.map Char.toLower then (-1 : Int)
    else if b.map Char.toLower < a.map Char.toLower then 1 else 0) ≤ 0 ↔ _
  rcases lt_trichotomy (a.map Char.toLower) (b.map Char.toLower) with h | h | h
  · simp [h, le_of_lt h]
  · simp [h]
  · simp [h, not_lt_of_gt h, not_le_of_gt h]

theorem sampleHost_consistent : ConsistentComparator sampleHost.localeCompare := by
  constructor
  · intro a b
    rw [sampleHost_compare_le, sampleHost_compare_le]
    exact le_total _ _
  · intro a b c
    rw [sampleHost_compare_le, sampleHost_compare_le, sampleHost_compare_le]
    exact le_trans

theorem twoTasks_distinct : DistinctIds (twoTaskStorage.tasks "a@b.c") := by
  have h : twoTaskStorage.tasks "a@b.c" = twoTasks := rfl
  rw [h]
  simp [DistinctIds, twoTasks, JObject.get, idEq, strictEq]

theorem twoTasks_importable : ∀ t ∈ twoTasks, importable t = true := by
  intro t ht
  simp only [twoTasks, List.mem_cons, List.mem_singleton, List.not_mem_nil, or_false] at ht
  rcases ht with rfl | rfl <;> rfl

/-- Registering `a@b.c` twice from an empty storage: the second call fails and the number
of users stays the one after the first call. -/
theorem register_duplicate_email_witness :
    (auth.register (auth.register emptyStorage "Ann" "a@b.c" "pw" "u1" newYear).2
        "Bob" "a@b.c" "pw2" "u2" newYear).1.ok = false ∧
    (auth.register (auth.register emptyStorage "Ann" "a@b.c" "pw" "u1" newYear).2
        "Bob" "a@b.c" "pw2" "u2" newYear).2.users.length =
      (auth.register emptyStorage "Ann" "a@b.c" "pw" "u1" newYear).2.users.length :=
  (register_duplicate_email emptyStorage "Ann" "a@b.c" "pw" "u1" newYear).2.2
    "Bob" "pw2" "u2" newYear

/-- The first login of `ann` succeeds and the session carries her `createdAt`. -/
theorem login_session_and_stamp_witness :
    (auth.login annStorage "a@b.c" "pw" newYear).1.ok = true ∧
    (auth.login annStorage "a@b.c" "pw" newYear).2.session =
      some { id := "u1", email := "a@b.c", name := "Ann", lastLogin := newYear } := by
  obtain ⟨pre, u, post, hl, hpre, -, -, hok, -, hs, -, -⟩ :=
    (login_session_and_stamp annStorage "a@b.c" "pw" newYear).1
      ⟨ann, List.mem_singleton_self _, rfl, rfl⟩
  exact ⟨hok, rfl⟩

/-- Clearing the completed tasks of a list without any leaves no completed task. -/
theorem clearCompleted_keeps_pending_witness :
    ∀ t ∈ (tasksApi.clearCompleted twoTaskStorage "a@b.c").tasks "a@b.c",
      isCompleted t = false :=
  (clearCompleted_keeps_pending twoTaskStorage "a@b.c").2.1

/-- With the filter `pending` and no search the rows are the tasks not completed. -/
theorem render_rows_are_filtered_witness :
    (render sampleHost pendingCache).Perm
      (pendingCache.tasks.filter (fun t => !t.completed)) :=
  (render_rows_are_filtered sampleHost pendingCache (Or.inr (Or.inr rfl))).2.2 rfl rfl

/-- The rows of `alphaCache` are in the order of `localeCompare` within each group, and
those of `pendingCache` in descending order of `createdAt`. -/
theorem render_order_witness :
    (render sampleHost alphaCache).Pairwise
      (fun a b => a.completed = b.completed →
        sampleHost.localeCompare a.title b.title ≤ 0) ∧
    (render sampleHost pendingCache).Pairwise
      (fun a b => a.completed = b.completed →
        ∃ ta tb, sampleHost.dateValue a.createdAt = some ta ∧
          sampleHost.dateValue b.createdAt = some tb ∧ tb ≤ ta) :=
  ⟨(render_order sampleHost alphaCache).2.1 rfl sampleHost_consistent,
    (render_order sampleHost pendingCache).2.2 (by decide) (by
      intro t ht _
      simp only [pendingCache, threeTasks, List.mem_cons, List.mem_singleton,
        List.not_mem_nil, or_false] at ht
      rcases ht with rfl | rfl | rfl <;> rfl)⟩

/-- Importing a document of two finite objects over two other tasks stores exactly that
array. -/
theorem import_contract_witness :
    ∃ list, (importFile sampleHost integerText initialCache twoTaskStorage "a@b.c"
        duplicateDoc).2.tasks "a@b.c" = list ∧ exportFile list = duplicateDoc := by
  obtain ⟨list, -, h2, -, h4, -⟩ :=
    (import_contract sampleHost integerText initialCache twoTaskStorage "a@b.c"
      duplicateDoc).1 _ rfl ((everyCheck_eq_true _).1 rfl)
  exact ⟨list, h2, h4 rfl⟩

/-- Exporting `twoTasks` and importing the export into an empty storage stores
`twoTasks`. -/
theorem export_import_roundtrip_witness :
    (importFile sampleHost integerText initialCache emptyStorage "a@b.c"
      (exportFile twoTasks)).2.tasks "a@b.c" = twoTasks :=
  (((export_import_roundtrip sampleHost integerText initialCache emptyStorage "a@b.c").1
    twoTasks).1 twoTasks_importable).2.1

/-- Updating an id that no task has writes nothing. -/
theorem update_contract_witness :
    (tasksApi.update twoTaskStorage "a@b.c" (.str "9") [("completed", .bool true)]
      newYear).2 = twoTaskStorage :=
  (update_contract twoTaskStorage "a@b.c" (.str "9") [("completed", .bool true)]
    newYear).2.1 (by
      intro t ht
      have h : twoTaskStorage.tasks "a@b.c" = twoTasks := rfl
      rw [h] at ht
      simp only [twoTasks, List.mem_cons, List.mem_singleton, List.not_mem_nil,
        or_false] at ht
      rcases ht with rfl | rfl <;> rfl)

/-- Toggling a task of `twoTasks` keeps the ids distinct; importing
`[{"title":"a","id":1e400},{"title":"b","id":-1e400}]` over them does not, the two ids
being stored as `null`. -/
theorem distinct_ids_preserved_witness :
    DistinctIds ((tasksApi.update twoTaskStorage "a@b.c" (.str "2")
      [("completed", .bool true)] newYear).2.tasks "a@b.c") ∧
    ¬ DistinctIds ((importFile sampleHost integerText initialCache twoTaskStorage "a@b.c"
      signedOverflowDoc).2.tasks "a@b.c") :=
  ⟨(distinct_ids_preserved twoTaskStorage "a@b.c" twoTasks_distinct).2.1
      (.str "2") [("completed", .bool true)] newYear rfl,
    fun hd => absurd
      (((distinct_ids_preserved twoTaskStorage "a@b.c" twoTasks_distinct).2.2.2.2
        sampleHost integerText initialCache
        [.obj [("title", .str "a"), ("id", .inf false)],
         .obj [("title", .str "b"), ("id", .inf true)]]
        ((everyCheck_eq_true _).1 rfl)).1 hd)
      (by simp [ImportedIdsDistinct, Parsed.idOf, Parsed.getField, Parsed.idEq,
        Parsed.strictEq, Parsed.isInfinite])⟩

end TaskManager
